import Mathlib

/-!
Verification of the holo-build package compiler (holocm/holo-build) against
its natural-language specification.  The definitions below are a shallow
embedding of the Go sources, chiefly:

* `libpackagebuild/filesystem/pkg.go` — the filesystem tree (`Node`,
  `Directory.Insert`, `PostponeUnmaterializable`, `Walk`),
* `libpackagebuild/package.go` — `Package.InsertFSNode`,
* `libpackagebuild/rpm/signature.go` + `rpm/generator.go` — the RPM
  signature header,
* `libpackagebuild/package.go` (debian part) — `buildArArchive`,
* `libpackagebuild/pacman/relations.go` — `compilePackageRequirements`,
* `libpackagebuild/pacman/mtree.go` — `mtreeEscapeString`,
* `src/holo-build/main.go` + holo integration — the build orchestration,
* `src/holo-build/common/output.go` — `WriteOutput`.

Go strings are modelled as `List Char` (written through the `str` helper)
so that every definition evaluates inside the kernel; raw byte strings are
`List Nat`.  Go maps from names to nodes are association lists kept in
name-sorted order (the canonical representative of an unordered Go map;
`Walk` iterates a Go map through `sort.Strings`, which list order realises
here).  In-place mutation of a child node is modelled by replacing the value
at its key without moving it (`replaceValueAt`); fresh map assignments are
modelled by `mapSet`.
-/

namespace HoloBuild

/-- Go strings, as character lists (Go compares strings byte-wise; for the
ASCII data handled here the orders coincide). -/
abbrev Str := List Char

/-- Converts a Lean string literal into the `Str` model. -/
def str (s : String) : Str := s.toList

/-- Byte-wise lexicographic strict order used by `sort.Strings`. -/
def strLt (a b : Str) : Prop := a < b

instance : DecidablePred fun p : Str × Str => strLt p.1 p.2 := by
  intro p
  unfold strLt
  infer_instance

instance (a b : Str) : Decidable (strLt a b) := by
  unfold strLt
  infer_instance

/-- Go `strings.Split(s, sep)` for a one-character separator. -/
def splitOnChar (sep : Char) : Str → List Str
  | [] => [[]]
  | c :: rest =>
    let r := splitOnChar sep rest
    if c = sep then [] :: r
    else
      match r with
      | [] => [[c]]
      | h :: t => (c :: h) :: t

/-- Go `strings.HasPrefix`. -/
def hasPfx (s pre : Str) : Bool := pre.isPrefixOf s

/-- Go `strings.TrimPrefix`: drops the prefix when present. -/
def trimPfx (s pre : Str) : Str := if hasPfx s pre then s.drop pre.length else s

/-- Owner/group reference that is either numeric or a name
(`filesystem.IntOrString`). -/
structure IntOrString where
  int : Nat
  str : Str
deriving DecidableEq, Repr

/-- Shared node metadata (`filesystem.NodeMetadata`): mode plus optional
owner/group references (a Go nil pointer is `none`). -/
structure NodeMetadata where
  mode : Nat
  owner : Option IntOrString
  group : Option IntOrString
deriving DecidableEq, Repr

/-- Filesystem node (`filesystem.Node` with its three concrete types
`Directory`, `RegularFile`, `Symlink`).  A directory carries its entry map
as a name-sorted association list, its metadata and the `Implicit` flag. -/
inductive Node where
  | directory (entries : List (Str × Node)) (metadata : NodeMetadata) (implicit : Bool)
  | regularFile (content : Str) (metadata : NodeMetadata)
  | symlink (target : Str)

/-- Looks a name up in an entry map (Go `d.Entries[subname]`, `nil` when
absent). -/
def lookupEntry : List (Str × Node) → Str → Option Node
  | [], _ => none
  | (k, v) :: rest, name => if k = name then some v else lookupEntry rest name

/-- Go map assignment `m[k] = v`: replaces the value if the key is bound,
otherwise inserts the binding at its name-sorted position (the canonical
spot for an unordered Go map). -/
def mapSet : List (Str × Node) → Str → Node → List (Str × Node)
  | [], k, v => [(k, v)]
  | (k₀, v₀) :: rest, k, v =>
    if k = k₀ then (k, v) :: rest
    else if strLt k k₀ then (k, v) :: (k₀, v₀) :: rest
    else (k₀, v₀) :: mapSet rest k v

/-- In-place mutation of the node stored under a key: the binding keeps its
position, only the value changes (a Go method call mutating `d.Entries[k]`
through its pointer). -/
def replaceValueAt : List (Str × Node) → Str → Node → List (Str × Node)
  | [], _, _ => []
  | (k₀, v₀) :: rest, k, v =>
    if k₀ = k then (k, v) :: rest else (k₀, v₀) :: replaceValueAt rest k v

/-- Errors returned by `Insert` (`errors.New("duplicate entry")` and
`fmt.Errorf("%s is not a directory", location)`). -/
inductive InsertError where
  | duplicateEntry
  | notADirectory (location : Str)
deriving DecidableEq, Repr

/-- An empty directory as produced by `filesystem.NewDirectory()`:
no entries, mode 0755, no owner/group, not implicit. -/
def newDirectory : Node :=
  Node.directory [] { mode := 0o755, owner := none, group := none } false

/-- Merge loop of `Directory.Insert`: `for key, value := range dirOld.Entries
{ dirNew.Entries[key] = value }` — every entry of the implicit old directory
is copied into the new directory's map (old entries win on name collisions). -/
def mergeEntries (dirNewEntries dirOldEntries : List (Str × Node)) : List (Str × Node) :=
  dirOldEntries.foldl (fun acc kv => mapSet acc kv.1 kv.2) dirNewEntries

/-- Shallow embedding of `Directory.Insert` / `RegularFile.Insert` /
`Symlink.Insert` (filesystem/pkg.go).  The returned node is the state of the
receiver after the call — mutations performed before a failure survive, as
they do in the Go original; the second component is the returned error. -/
def Node.insert : Node → Node → List Str → Str → Node × Option InsertError
  | Node.regularFile c m, _, relPath, location =>
    if relPath = [] then (Node.regularFile c m, some InsertError.duplicateEntry)
    else (Node.regularFile c m, some (InsertError.notADirectory location))
  | Node.symlink t, _, relPath, location =>
    if relPath = [] then (Node.symlink t, some InsertError.duplicateEntry)
    else (Node.symlink t, some (InsertError.notADirectory location))
  | Node.directory entries meta impl, _, [], _ =>
    (Node.directory entries meta impl, some InsertError.duplicateEntry)
  | Node.directory entries meta impl, entry, [subname], _ =>
    match lookupEntry entries subname with
    | some subentry =>
      match subentry, entry with
      | Node.directory oldEntries _ oldImplicit, Node.directory newEntries newMeta newImplicit =>
        if oldImplicit then
          (Node.directory
            (mapSet entries subname
              (Node.directory (mergeEntries newEntries oldEntries) newMeta newImplicit))
            meta impl, none)
        else
          (Node.directory entries meta impl, some InsertError.duplicateEntry)
      | _, _ =>
        (Node.directory entries meta impl, some InsertError.duplicateEntry)
    | none =>
      (Node.directory (mapSet entries subname entry) meta impl, none)
  | Node.directory entries meta impl, entry, subname :: rest₀ :: rest, location =>
    match lookupEntry entries subname with
    | none =>
      let fresh := Node.directory [] { mode := 0o755, owner := none, group := none } true
      let r := Node.insert fresh entry (rest₀ :: rest) (location ++ str "/" ++ subname)
      (Node.directory (replaceValueAt (mapSet entries subname fresh) subname r.1) meta impl, r.2)
    | some subentry =>
      match subentry with
      | Node.directory subEntries subMeta subImplicit =>
        let r := Node.insert (Node.directory subEntries subMeta subImplicit) entry
          (rest₀ :: rest) (location ++ str "/" ++ subname)
        (Node.directory (replaceValueAt entries subname r.1) meta impl, r.2)
      | _ =>
        (Node.directory entries meta impl,
          some (InsertError.notADirectory (location ++ str "/" ++ subname)))

/-- Path composition rule of `Directory.Walk`: at base `""` the next path is
`name`, at base `"/"` it is `"/" + name`, otherwise `base + "/" + name`. -/
def walkNextPath (base name : Str) : Str :=
  if base = [] then name
  else if base = str "/" then str "/" ++ name
  else base ++ str "/" ++ name

mutual

/-- Flattening of `Directory.Walk` with an always-`nil` callback: the list of
(absolute path, node) pairs in visit order — a node first, then its entries
in name-sorted order (the canonical list order here). -/
def walkPairs : Node → Str → List (Str × Node)
  | Node.directory entries meta impl, base =>
    (base, Node.directory entries meta impl) :: walkPairsList entries base
  | Node.regularFile c m, base => [(base, Node.regularFile c m)]
  | Node.symlink t, base => [(base, Node.symlink t)]

/-- Walk flattening over an entry list. -/
def walkPairsList : List (Str × Node) → Str → List (Str × Node)
  | [], _ => []
  | (name, child) :: rest, base =>
    walkPairs child (walkNextPath base name) ++ walkPairsList rest base

end

/-- Shallow embedding of `NodeMetadata.postponeUnmaterializable`: extracts a
name-form owner and/or group, clears them (the whole reference is set to
`nil`), and renders the single `chown`/`chgrp` line. -/
def postponeMeta (m : NodeMetadata) (path : Str) : Str × NodeMetadata :=
  let ownerPair : Str × Option IntOrString :=
    match m.owner with
    | some o => if o.str = [] then ([], some o) else (o.str, none)
    | none => ([], none)
  let groupPair : Str × Option IntOrString :=
    match m.group with
    | some g => if g.str = [] then ([], some g) else (g.str, none)
    | none => ([], none)
  let ownerStr := ownerPair.1
  let groupStr := groupPair.1
  let script :=
    if ownerStr = [] then
      if groupStr = [] then [] else str "chgrp " ++ groupStr ++ str " " ++ path ++ str "\n"
    else
      if groupStr = [] then str "chown " ++ ownerStr ++ str " " ++ path ++ str "\n"
      else str "chown " ++ ownerStr ++ str ":" ++ groupStr ++ str " " ++ path ++ str "\n"
  (script, { mode := m.mode, owner := ownerPair.2, group := groupPair.2 })

mutual

/-- Shallow embedding of `Node.PostponeUnmaterializable`: the generated setup
script together with the tree after the in-place metadata mutation.  For a
directory the own metadata is handled first, then every child (the Go
original drives this through `Walk` with a `SkipDir`-returning callback that
recurses explicitly, visiting each node exactly once in walk order). -/
def postponeNode : Node → Str → Str × Node
  | Node.directory entries meta impl, path =>
    let own := postponeMeta meta path
    let rest := postponeList entries path
    (own.1 ++ rest.1, Node.directory rest.2 own.2 impl)
  | Node.regularFile c m, path =>
    let own := postponeMeta m path
    (own.1, Node.regularFile c own.2)
  | Node.symlink t, _ => ([], Node.symlink t)

/-- Postponement over an entry list, in order, composing paths as `Walk`
does. -/
def postponeList : List (Str × Node) → Str → Str × List (Str × Node)
  | [], _ => ([], [])
  | (name, child) :: rest, base =>
    let rc := postponeNode child (walkNextPath base name)
    let rr := postponeList rest base
    (rc.1 ++ rr.1, (name, rc.2) :: rr.2)

end

/-- Does this metadata carry a name-form owner or group? -/
def metaNameForm (m : NodeMetadata) : Bool :=
  (match m.owner with | some o => o.str ≠ [] | none => false)
    || (match m.group with | some g => g.str ≠ [] | none => false)

/-- Name-form check for the metadata a single node carries (symlinks carry
none). -/
def nodeNameForm : Node → Bool
  | Node.directory _ m _ => metaNameForm m
  | Node.regularFile _ m => metaNameForm m
  | Node.symlink _ => false

/-- The per-node contribution to the postponement script, as a function of
the node's pre-call state and its walk path. -/
def nodeChownLine (n : Node) (path : Str) : Str :=
  match n with
  | Node.directory _ m _ => (postponeMeta m path).1
  | Node.regularFile _ m => (postponeMeta m path).1
  | Node.symlink _ => []

/-- Version constraint of a package relation (`build.VersionConstraint`). -/
structure VersionConstraint where
  relation : Str
  version : Str
deriving DecidableEq, Repr

/-- Relation to another package (`build.PackageRelation`). -/
structure PackageRelation where
  relatedPackage : Str
  constraints : List VersionConstraint
deriving DecidableEq, Repr

/-- Package action (`build.PackageAction`); type 0 is `SetupAction`, type 1
is `CleanupAction`. -/
structure PackageAction where
  type : Nat
  content : Str
deriving DecidableEq, Repr

/-- The package model (`build.Package`), restricted to the fields the claims
touch. -/
structure Package where
  name : Str
  version : Str
  requires : List PackageRelation
  provides : List PackageRelation
  conflicts : List PackageRelation
  replaces : List PackageRelation
  actions : List PackageAction
  fsRoot : Node

/-- Lexical cleaning of an absolute slash path (Go `path/filepath.Clean`
restricted to absolute paths): empty and `.` segments vanish, `..` pops. -/
def cleanSegments (p : Str) : List Str :=
  (splitOnChar '/' p).foldl
    (fun acc seg =>
      if seg = [] ∨ seg = str "." then acc
      else if seg = str ".." then acc.dropLast
      else acc ++ [seg])
    []

/-- Model of `filepath.Rel("/", p)` followed by `strings.Split(relPath, "/")`
as performed by `Package.InsertFSNode`: an absolute path is cleaned and made
relative to the root; the root itself becomes `"."`, which splits to the
single segment `"."`.  A non-absolute path is an error. -/
def relSegmentsFromRoot (p : Str) : Option (List Str) :=
  if hasPfx p (str "/") then
    match cleanSegments p with
    | [] => some [str "."]
    | segs => some segs
  else none

/-- Error surface of `Package.InsertFSNode`. -/
inductive PkgError where
  | relNotAbsolute
  | insertFailed (absolutePath : Str) (e : InsertError)
deriving DecidableEq, Repr

/-- Shallow embedding of `Package.InsertFSNode`: split the path, insert at
the filesystem root (which is mutated in place even when the insertion
fails), wrap failures with the failing path. -/
def Package.insertFSNode (pkg : Package) (absolutePath : Str) (entry : Node) :
    Package × Option PkgError :=
  match relSegmentsFromRoot absolutePath with
  | none => (pkg, some PkgError.relNotAbsolute)
  | some segs =>
    let r := pkg.fsRoot.insert entry segs (str "/")
    ({ pkg with fsRoot := r.1 }, r.2.map (PkgError.insertFailed absolutePath))

/-- Entry map of a directory node (empty for non-directories). -/
def nodeEntries : Node → List (Str × Node)
  | Node.directory es _ _ => es
  | _ => []

/-- Is this node a directory? -/
def isDirNode : Node → Bool
  | Node.directory _ _ _ => true
  | _ => false

/-- Is this node a directory with the `Implicit` flag set? -/
def isImplicitDirNode : Node → Bool
  | Node.directory _ _ impl => impl
  | _ => false

mutual

/-- No node in this tree carries a name-form owner or group. -/
def nodeClean : Node → Bool
  | Node.directory es m _ => !metaNameForm m && entriesClean es
  | Node.regularFile _ m => !metaNameForm m
  | Node.symlink _ => true

/-- `nodeClean` over an entry list. -/
def entriesClean : List (Str × Node) → Bool
  | [] => true
  | (_, c) :: rest => nodeClean c && entriesClean rest

end

namespace Lemmas

theorem lookupEntry_mapSet_self (es : List (Str × Node)) (k : Str) (v : Node) :
    lookupEntry (mapSet es k v) k = some v := by
  induction es with
  | nil => simp [mapSet, lookupEntry]
  | cons hd tl ih =>
    obtain ⟨k₀, v₀⟩ := hd
    by_cases h : k = k₀
    · simp [mapSet, h, lookupEntry]
    · by_cases h2 : strLt k k₀
      · simp [mapSet, h, h2, lookupEntry]
      · simp [mapSet, h, h2, lookupEntry, Ne.symm h, ih]

theorem lookupEntry_mapSet_other (es : List (Str × Node)) (k k' : Str) (v : Node)
    (h : k' ≠ k) : lookupEntry (mapSet es k v) k' = lookupEntry es k' := by
  have hne : ¬ k = k' := fun hh => h hh.symm
  induction es with
  | nil => simp [mapSet, lookupEntry, hne]
  | cons hd tl ih =>
    obtain ⟨k₀, v₀⟩ := hd
    by_cases h1 : k = k₀
    · subst h1
      simp [mapSet, lookupEntry, hne]
    · by_cases h2 : strLt k k₀
      · simp [mapSet, h1, h2, lookupEntry, hne]
      · simp [mapSet, h1, h2, lookupEntry, ih]

theorem lookupEntry_eq_none_of_not_mem (es : List (Str × Node)) (k : Str)
    (h : k ∉ es.map Prod.fst) : lookupEntry es k = none := by
  induction es with
  | nil => simp [lookupEntry]
  | cons hd tl ih =>
    obtain ⟨k₀, v₀⟩ := hd
    simp only [List.map_cons, List.mem_cons, not_or] at h
    have hne : ¬ k₀ = k := fun hh => h.1 hh.symm
    simp [lookupEntry, hne, ih h.2]

/-- The merged entry map the implicit-directory rule produces looks up as the
left-biased union: the implicit directory's children win, the new
directory's children fill the rest. -/
theorem lookupEntry_mergeEntries (aE bE : List (Str × Node)) (k : Str)
    (h : (aE.map Prod.fst).Nodup) :
    lookupEntry (mergeEntries bE aE) k = (lookupEntry aE k).orElse (fun _ => lookupEntry bE k) := by
  induction aE generalizing bE with
  | nil => simp [mergeEntries, lookupEntry]
  | cons hd tl ih =>
    obtain ⟨ka, va⟩ := hd
    simp only [List.map_cons, List.nodup_cons] at h
    have step : mergeEntries bE ((ka, va) :: tl) = mergeEntries (mapSet bE ka va) tl := rfl
    rw [step, ih _ h.2]
    by_cases hk : k = ka
    · subst hk
      have hnone : lookupEntry tl k = none :=
        lookupEntry_eq_none_of_not_mem tl k h.1
      simp [hnone, lookupEntry, lookupEntry_mapSet_self]
    · have hne : ¬ ka = k := fun hh => hk hh.symm
      simp [lookupEntry, hne, lookupEntry_mapSet_other bE ka k va (fun hh => hk hh)]

theorem replaceValueAt_lookup_self (es : List (Str × Node)) (k : Str) (v : Node)
    (h : lookupEntry es k = some v) : replaceValueAt es k v = es := by
  induction es with
  | nil => simp [replaceValueAt]
  | cons hd tl ih =>
    obtain ⟨k₀, v₀⟩ := hd
    by_cases h1 : k₀ = k
    · subst h1
      simp [lookupEntry] at h
      simp [replaceValueAt, h]
    · simp [lookupEntry, h1] at h
      simp [replaceValueAt, h1, ih h]

/-- Inserting below an empty directory always succeeds (the branch taken
after an implicit intermediate directory has been spawned). -/
theorem insert_empty_dir_ok (relPath : List Str) (h : relPath ≠ []) :
    ∀ (m : NodeMetadata) (impl : Bool) (entry : Node) (location : Str),
      (Node.insert (Node.directory [] m impl) entry relPath location).2 = none := by
  induction relPath with
  | nil => exact absurd rfl h
  | cons s rest ih =>
    intro m impl entry location
    cases rest with
    | nil => simp [Node.insert, lookupEntry]
    | cons r₀ r =>
      simp only [Node.insert, lookupEntry]
      exact ih (by simp) _ _ _ _

/-- A failing insertion leaves the receiver untouched: every error is
detected before any mutation happens. -/
theorem insert_error_no_mutation (relPath : List Str) :
    ∀ (n entry : Node) (location : Str) (e : InsertError),
      (Node.insert n entry relPath location).2 = some e →
      (Node.insert n entry relPath location).1 = n := by
  induction relPath with
  | nil =>
    intro n entry location e _
    cases n <;> simp [Node.insert]
  | cons s rest ih =>
    intro n entry location e herr
    cases n with
    | regularFile c m => simp [Node.insert]
    | symlink t => simp [Node.insert]
    | directory entries meta impl =>
      cases rest with
      | nil =>
        cases hl : lookupEntry entries s with
        | none => simp [Node.insert, hl] at herr
        | some subentry =>
          cases subentry with
          | directory oldE oldM oldImpl =>
            cases entry with
            | directory newE newM newImpl =>
              by_cases himpl : oldImpl
              · simp [Node.insert, hl, himpl] at herr
              · simp [Node.insert, hl, himpl]
            | regularFile c m => simp [Node.insert, hl]
            | symlink t => simp [Node.insert, hl]
          | regularFile c m => cases entry <;> simp [Node.insert, hl]
          | symlink t => cases entry <;> simp [Node.insert, hl]
      | cons r₀ r =>
        cases hl : lookupEntry entries s with
        | none =>
          exfalso
          have hok := insert_empty_dir_ok (r₀ :: r) (by simp)
            { mode := 0o755, owner := none, group := none } true entry
            (location ++ (str "/" ++ s))
          simp [Node.insert, hl, hok] at herr
        | some subentry =>
          cases subentry with
          | directory subE subM subImpl =>
            simp only [Node.insert, hl] at herr ⊢
            have hsub := ih (Node.directory subE subM subImpl) entry
              (location ++ str "/" ++ s) e herr
            rw [hsub]
            rw [replaceValueAt_lookup_self entries s _ hl]
          | regularFile c m => simp [Node.insert, hl]
          | symlink t => simp [Node.insert, hl]

theorem postponeMeta_script_empty_iff (m : NodeMetadata) (path : Str) :
    ((postponeMeta m path).1 = []) ↔ metaNameForm m = false := by
  cases ho : m.owner with
  | none =>
    cases hg : m.group with
    | none => simp [postponeMeta, metaNameForm, ho, hg]
    | some g =>
      by_cases hgs : g.str = []
      · simp [postponeMeta, metaNameForm, ho, hg, hgs]
      · simp [postponeMeta, metaNameForm, ho, hg, hgs, str]
  | some o =>
    by_cases hos : o.str = []
    · cases hg : m.group with
      | none => simp [postponeMeta, metaNameForm, ho, hg, hos]
      | some g =>
        by_cases hgs : g.str = []
        · simp [postponeMeta, metaNameForm, ho, hg, hos, hgs]
        · simp [postponeMeta, metaNameForm, ho, hg, hos, hgs, str]
    · cases hg : m.group with
      | none => simp [postponeMeta, metaNameForm, ho, hg, hos, str]
      | some g =>
        by_cases hgs : g.str = []
        · simp [postponeMeta, metaNameForm, ho, hg, hos, hgs, str]
        · simp [postponeMeta, metaNameForm, ho, hg, hos, hgs, str]

theorem postponeMeta_result_clean (m : NodeMetadata) (path : Str) :
    metaNameForm (postponeMeta m path).2 = false := by
  cases ho : m.owner with
  | none =>
    cases hg : m.group with
    | none => simp [postponeMeta, metaNameForm, ho, hg]
    | some g =>
      by_cases hgs : g.str = []
      · simp [postponeMeta, metaNameForm, ho, hg, hgs]
      · simp [postponeMeta, metaNameForm, ho, hg, hgs]
  | some o =>
    by_cases hos : o.str = []
    · cases hg : m.group with
      | none => simp [postponeMeta, metaNameForm, ho, hg, hos]
      | some g =>
        by_cases hgs : g.str = []
        · simp [postponeMeta, metaNameForm, ho, hg, hos, hgs]
        · simp [postponeMeta, metaNameForm, ho, hg, hos, hgs]
    · cases hg : m.group with
      | none => simp [postponeMeta, metaNameForm, ho, hg, hos]
      | some g =>
        by_cases hgs : g.str = []
        · simp [postponeMeta, metaNameForm, ho, hg, hos, hgs]
        · simp [postponeMeta, metaNameForm, ho, hg, hos, hgs]

theorem postponeMeta_clean_id (m : NodeMetadata) (path : Str)
    (h : metaNameForm m = false) : postponeMeta m path = ([], m) := by
  obtain ⟨md, ow, gr⟩ := m
  cases ow with
  | none =>
    cases gr with
    | none => simp [postponeMeta]
    | some g =>
      have hgs : g.str = [] := by
        simp [metaNameForm] at h
        exact h
      simp [postponeMeta, hgs]
  | some o =>
    have hos : o.str = [] := by
      simp [metaNameForm] at h
      exact h.1
    cases gr with
    | none => simp [postponeMeta, hos]
    | some g =>
      have hgs : g.str = [] := by
        simp [metaNameForm] at h
        exact h.2
      simp [postponeMeta, hos, hgs]

mutual

/-- The postponement script is exactly the concatenation, in walk order, of
each node's own `chown`/`chgrp` contribution. -/
theorem postpone_script_walk : ∀ (n : Node) (path : Str),
    (postponeNode n path).1 = ((walkPairs n path).map fun pr => nodeChownLine pr.2 pr.1).flatten
  | Node.directory es m impl, path => by
    simp [postponeNode, walkPairs, nodeChownLine, postpone_script_walk_list es path]
  | Node.regularFile c m, path => by
    simp [postponeNode, walkPairs, nodeChownLine]
  | Node.symlink t, path => by
    simp [postponeNode, walkPairs, nodeChownLine]

theorem postpone_script_walk_list : ∀ (es : List (Str × Node)) (base : Str),
    (postponeList es base).1 =
      ((walkPairsList es base).map fun pr => nodeChownLine pr.2 pr.1).flatten
  | [], _ => by simp [postponeList, walkPairsList]
  | (name, child) :: rest, base => by
    simp [postponeList, walkPairsList,
      postpone_script_walk child (walkNextPath base name),
      postpone_script_walk_list rest base]

end

mutual

/-- After postponement no node carries a name-form owner or group. -/
theorem postpone_result_clean : ∀ (n : Node) (path : Str),
    nodeClean (postponeNode n path).2 = true
  | Node.directory es m impl, path => by
    simp [postponeNode, nodeClean, postponeMeta_result_clean,
      postpone_result_clean_list es path]
  | Node.regularFile c m, path => by
    simp [postponeNode, nodeClean, postponeMeta_result_clean]
  | Node.symlink t, path => by simp [postponeNode, nodeClean]

theorem postpone_result_clean_list : ∀ (es : List (Str × Node)) (base : Str),
    entriesClean (postponeList es base).2 = true
  | [], _ => by simp [postponeList, entriesClean]
  | (name, child) :: rest, base => by
    simp [postponeList, entriesClean,
      postpone_result_clean child (walkNextPath base name),
      postpone_result_clean_list rest base]

end

mutual

/-- Postponement is the identity on a tree without name-form metadata. -/
theorem postpone_clean_id : ∀ (n : Node) (path : Str), nodeClean n = true →
    postponeNode n path = ([], n)
  | Node.directory es m impl, path, h => by
    simp only [nodeClean, Bool.and_eq_true, Bool.not_eq_true'] at h
    simp [postponeNode, postponeMeta_clean_id m path h.1,
      postpone_clean_id_list es path h.2]
  | Node.regularFile c m, path, h => by
    simp only [nodeClean, Bool.not_eq_true'] at h
    simp [postponeNode, postponeMeta_clean_id m path h]
  | Node.symlink t, path, _ => by simp [postponeNode]

theorem postpone_clean_id_list : ∀ (es : List (Str × Node)) (base : Str),
    entriesClean es = true → postponeList es base = ([], es)
  | [], _, _ => by simp [postponeList]
  | (name, child) :: rest, base, h => by
    simp only [entriesClean, Bool.and_eq_true] at h
    simp [postponeList, postpone_clean_id child (walkNextPath base name) h.1,
      postpone_clean_id_list rest base h.2]

end

theorem insert_preserves_dir_shape (es : List (Str × Node)) (m : NodeMetadata) (i : Bool)
    (entry : Node) (rp : List Str) (loc : Str) :
    ∃ es', (Node.insert (Node.directory es m i) entry rp loc).1 = Node.directory es' m i := by
  match rp with
  | [] => exact ⟨es, rfl⟩
  | [s] =>
    cases hl : lookupEntry es s with
    | none => exact ⟨mapSet es s entry, by simp [Node.insert, hl]⟩
    | some subentry =>
      cases subentry with
      | directory oldE oldM oldImpl =>
        cases entry with
        | directory newE newM newImpl =>
          by_cases himpl : oldImpl
          · exact ⟨mapSet es s (Node.directory (mergeEntries newE oldE) newM newImpl),
              by simp [Node.insert, hl, himpl]⟩
          · exact ⟨es, by simp [Node.insert, hl, himpl]⟩
        | regularFile c fm => exact ⟨es, by simp [Node.insert, hl]⟩
        | symlink t => exact ⟨es, by simp [Node.insert, hl]⟩
      | regularFile c fm => cases entry <;> exact ⟨es, by simp [Node.insert, hl]⟩
      | symlink t => cases entry <;> exact ⟨es, by simp [Node.insert, hl]⟩
  | s :: r₀ :: r =>
    cases hl : lookupEntry es s with
    | none =>
      exact ⟨replaceValueAt
        (mapSet es s (Node.directory [] { mode := 0o755, owner := none, group := none } true)) s
        (Node.insert (Node.directory [] { mode := 0o755, owner := none, group := none } true)
          entry (r₀ :: r) (loc ++ str "/" ++ s)).1, by simp [Node.insert, hl]⟩
    | some subentry =>
      cases subentry with
      | directory subE subM subImpl =>
        exact ⟨replaceValueAt es s
          (Node.insert (Node.directory subE subM subImpl) entry (r₀ :: r)
            (loc ++ str "/" ++ s)).1, by simp [Node.insert, hl]⟩
      | regularFile c fm => exact ⟨es, by simp [Node.insert, hl]⟩
      | symlink t => exact ⟨es, by simp [Node.insert, hl]⟩

theorem lookupEntry_replaceValueAt_self (es : List (Str × Node)) (k : Str) (v : Node)
    (h : (lookupEntry es k).isSome) :
    lookupEntry (replaceValueAt es k v) k = some v := by
  induction es with
  | nil => simp [lookupEntry] at h
  | cons hd tl ih =>
    obtain ⟨k₀, v₀⟩ := hd
    by_cases h1 : k₀ = k
    · simp [replaceValueAt, h1, lookupEntry]
    · simp [lookupEntry, h1] at h
      simp [replaceValueAt, h1, lookupEntry, ih h]

end Lemmas

/-! ## Claim C3 -/

/-- C3: `PostponeUnmaterializable` returns the concatenation, in walk
order, of one contribution per node, where a node's contribution is its
single `chown`/`chgrp` line exactly when its owner or group metadata is
name-form (and empty otherwise); the names are cleared in place, so after
a first application no node's metadata contains a name-form owner or
group, and a second application to the resulting tree returns the empty
script and leaves the tree unchanged. -/
theorem claim_C3_postpone_idempotent :
    (∀ (n : Node) (path : Str),
      (postponeNode n path).1
        = ((walkPairs n path).map fun pr => nodeChownLine pr.2 pr.1).flatten)
    ∧ (∀ (n : Node) (path : Str), (nodeChownLine n path = []) ↔ nodeNameForm n = false)
    ∧ (∀ (n : Node) (path : Str), nodeClean (postponeNode n path).2 = true)
    ∧ (∀ (n : Node) (path q : Str),
        postponeNode (postponeNode n path).2 q = ([], (postponeNode n path).2)) := by
  refine ⟨?_, ?_, ?_, ?_⟩
  · intro n path
    exact Lemmas.postpone_script_walk n path
  · intro n path
    cases n with
    | directory es m impl =>
      simpa [nodeChownLine, nodeNameForm] using Lemmas.postponeMeta_script_empty_iff m path
    | regularFile c m =>
      simpa [nodeChownLine, nodeNameForm] using Lemmas.postponeMeta_script_empty_iff m path
    | symlink t => simp [nodeChownLine, nodeNameForm]
  · intro n path
    exact Lemmas.postpone_result_clean n path
  · intro n path q
    exact Lemmas.postpone_clean_id (postponeNode n path).2 q
      (Lemmas.postpone_result_clean n path)

/-! ## Claim C10 -/

/-- C10: whenever `Directory.Insert` returns an error (duplicate entry, or a
non-directory occupying a non-terminal path segment), the tree is left
exactly as it was before the call; an implicit intermediate directory is
only ever created at a name that has no entry, and once one has been
created the rest of the insertion cannot fail (so every failure occurs
before any mutation). -/
theorem claim_C10_insert_failure_atomic :
    (∀ (n entry : Node) (relPath : List Str) (location : Str) (e : InsertError),
      (Node.insert n entry relPath location).2 = some e →
      (Node.insert n entry relPath location).1 = n)
    ∧
    (∀ (entries : List (Str × Node)) (meta : NodeMetadata) (impl : Bool)
       (s r₀ : Str) (r : List Str) (entry : Node) (location : Str),
      lookupEntry entries s = none →
      (Node.insert (Node.directory entries meta impl) entry (s :: r₀ :: r) location).2 = none) := by
  constructor
  · intro n entry relPath location e herr
    exact Lemmas.insert_error_no_mutation relPath n entry location e herr
  · intro entries meta impl s r₀ r entry location hl
    simp only [Node.insert, hl]
    exact Lemmas.insert_empty_dir_ok (r₀ :: r) (by simp)
      { mode := 0o755, owner := none, group := none } true entry
      (location ++ str "/" ++ s)

/-- Witness for C10: a duplicate-entry failure leaves a concrete tree
unchanged, and a concrete insertion descending through an absent name
succeeds. -/
theorem claim_C10_witness :
    ((Node.insert
        (Node.directory [(str "a", Node.symlink (str "t"))]
          { mode := 0o755, owner := none, group := none } false)
        (Node.symlink (str "u")) [str "a"] (str "/")).1 =
      Node.directory [(str "a", Node.symlink (str "t"))]
        { mode := 0o755, owner := none, group := none } false)
    ∧
    ((Node.insert
        (Node.directory [(str "a", Node.symlink (str "t"))]
          { mode := 0o755, owner := none, group := none } false)
        (Node.symlink (str "u")) [str "b", str "c"] (str "/")).2 = none) := by
  constructor
  · exact claim_C10_insert_failure_atomic.1
      (Node.directory [(str "a", Node.symlink (str "t"))]
        { mode := 0o755, owner := none, group := none } false)
      (Node.symlink (str "u")) [str "a"] (str "/") InsertError.duplicateEntry rfl
  · exact claim_C10_insert_failure_atomic.2
      [(str "a", Node.symlink (str "t"))]
      { mode := 0o755, owner := none, group := none } false
      (str "b") (str "c") [] (Node.symlink (str "u")) (str "/") rfl

/-! ## Claim C1 -/

/-- C1: inserting a node B at a path whose terminal segment is already
occupied by an entry A fails with a duplicate-entry error (leaving the tree
unchanged), unless A is an implicit Directory and B is a Directory, in
which case B replaces A at that name and B's entry map afterwards is the
union of A's children and B's children (A's children are preserved and win
name collisions); inserting below a RegularFile or Symlink fails with a
not-a-directory error; and an intermediate directory created while
descending is marked implicit.  The terminal-segment cases are stated at
the directory that holds the terminal entry — `d` ranges over arbitrary
trees, so this covers every insertion path that reaches its terminal
segment. -/
theorem claim_C1_insert_rules
    (entries : List (Str × Node)) (meta : NodeMetadata) (impl : Bool)
    (s : Str) (B : Node) (location : Str) :
    (∀ A, lookupEntry entries s = some A →
      ¬(isImplicitDirNode A = true ∧ isDirNode B = true) →
      Node.insert (Node.directory entries meta impl) B [s] location =
        (Node.directory entries meta impl, some InsertError.duplicateEntry))
    ∧
    (∀ aE aM bE bM bI, lookupEntry entries s = some (Node.directory aE aM true) →
      B = Node.directory bE bM bI →
      (aE.map Prod.fst).Nodup →
      Node.insert (Node.directory entries meta impl) B [s] location =
        (Node.directory
          (mapSet entries s (Node.directory (mergeEntries bE aE) bM bI)) meta impl, none)
      ∧ lookupEntry (mapSet entries s (Node.directory (mergeEntries bE aE) bM bI)) s
          = some (Node.directory (mergeEntries bE aE) bM bI)
      ∧ (∀ k, lookupEntry (mergeEntries bE aE) k
          = (lookupEntry aE k).orElse (fun _ => lookupEntry bE k)))
    ∧
    (∀ (c : Str) (fm : NodeMetadata) (p : Str) (ps : List Str),
      Node.insert (Node.regularFile c fm) B (p :: ps) location =
        (Node.regularFile c fm, some (InsertError.notADirectory location)))
    ∧
    (∀ (t p : Str) (ps : List Str),
      Node.insert (Node.symlink t) B (p :: ps) location =
        (Node.symlink t, some (InsertError.notADirectory location)))
    ∧
    (∀ (r₀ : Str) (r : List Str) (c : Str) (fm : NodeMetadata),
      lookupEntry entries s = some (Node.regularFile c fm) →
      Node.insert (Node.directory entries meta impl) B (s :: r₀ :: r) location =
        (Node.directory entries meta impl,
          some (InsertError.notADirectory (location ++ str "/" ++ s))))
    ∧
    (∀ (r₀ : Str) (r : List Str), lookupEntry entries s = none →
      (Node.insert (Node.directory entries meta impl) B (s :: r₀ :: r) location).2 = none
      ∧ ∃ childEntries,
        lookupEntry
          (nodeEntries (Node.insert (Node.directory entries meta impl) B (s :: r₀ :: r) location).1)
          s = some (Node.directory childEntries
            { mode := 0o755, owner := none, group := none } true)) := by
  refine ⟨?_, ?_, ?_, ?_, ?_, ?_⟩
  · intro A hl hnot
    cases A with
    | directory aE aM aImpl =>
      cases B with
      | directory bE bM bI =>
        have : ¬ aImpl := by
          intro hi
          exact hnot ⟨by simp [isImplicitDirNode, hi], by simp [isDirNode]⟩
        simp [Node.insert, hl, this]
      | regularFile c fm => simp [Node.insert, hl]
      | symlink t => simp [Node.insert, hl]
    | regularFile c fm => cases B <;> simp [Node.insert, hl]
    | symlink t => cases B <;> simp [Node.insert, hl]
  · intro aE aM bE bM bI hl hB hnd
    subst hB
    refine ⟨by simp [Node.insert, hl], ?_, ?_⟩
    · exact Lemmas.lookupEntry_mapSet_self entries s _
    · intro k
      exact Lemmas.lookupEntry_mergeEntries aE bE k hnd
  · intro c fm p ps
    simp [Node.insert]
  · intro t p ps
    simp [Node.insert]
  · intro r₀ r c fm hl
    simp [Node.insert, hl]
  · intro r₀ r hl
    constructor
    · exact claim_C10_insert_failure_atomic.2 entries meta impl s r₀ r B location hl
    · obtain ⟨es', hshape⟩ := Lemmas.insert_preserves_dir_shape []
        { mode := 0o755, owner := none, group := none } true B (r₀ :: r)
        (location ++ str "/" ++ s)
      refine ⟨es', ?_⟩
      simp only [Node.insert, hl, nodeEntries]
      rw [hshape]
      apply Lemmas.lookupEntry_replaceValueAt_self
      rw [Lemmas.lookupEntry_mapSet_self]
      rfl

/-- Witness for C1: each conjunct instantiated at a concrete tree — a
duplicate at an occupied name, the implicit-directory merge (with the union
checked at the colliding and the fresh key), failures below a file and a
symlink, and an implicitly created intermediate directory. -/
theorem claim_C1_witness :
    (Node.insert
      (Node.directory [(str "f", Node.regularFile (str "x")
        { mode := 0o644, owner := none, group := none })]
        { mode := 0o755, owner := none, group := none } false)
      (Node.regularFile (str "y") { mode := 0o644, owner := none, group := none })
      [str "f"] (str "/") =
      (Node.directory [(str "f", Node.regularFile (str "x")
        { mode := 0o644, owner := none, group := none })]
        { mode := 0o755, owner := none, group := none } false,
        some InsertError.duplicateEntry))
    ∧
    (Node.insert
      (Node.directory
        [(str "a", Node.directory [(str "c", Node.symlink (str "old"))]
          { mode := 0o755, owner := none, group := none } true)]
        { mode := 0o755, owner := none, group := none } false)
      (Node.directory [(str "c", Node.symlink (str "new")), (str "d", Node.symlink (str "d"))]
        { mode := 0o700, owner := none, group := none } false)
      [str "a"] (str "/")).2 = none
    ∧
    (lookupEntry
      (mergeEntries [(str "c", Node.symlink (str "new")), (str "d", Node.symlink (str "d"))]
        [(str "c", Node.symlink (str "old"))]) (str "c") = some (Node.symlink (str "old")))
    ∧
    (lookupEntry
      (mergeEntries [(str "c", Node.symlink (str "new")), (str "d", Node.symlink (str "d"))]
        [(str "c", Node.symlink (str "old"))]) (str "d") = some (Node.symlink (str "d")))
    ∧
    (Node.insert (Node.regularFile (str "x") { mode := 0o644, owner := none, group := none })
      (Node.symlink (str "u")) [str "p"] (str "/etc/f")).2
        = some (InsertError.notADirectory (str "/etc/f"))
    ∧
    (Node.insert (Node.symlink (str "t")) (Node.symlink (str "u")) [str "p"] (str "/etc/l")).2
        = some (InsertError.notADirectory (str "/etc/l"))
    ∧
    (Node.insert
      (Node.directory [] { mode := 0o755, owner := none, group := none } false)
      (Node.symlink (str "u")) [str "v", str "w"] (str "")).2 = none := by
  have h := claim_C1_insert_rules
    [(str "f", Node.regularFile (str "x") { mode := 0o644, owner := none, group := none })]
    { mode := 0o755, owner := none, group := none } false (str "f")
    (Node.regularFile (str "y") { mode := 0o644, owner := none, group := none }) (str "/")
  have h2 := claim_C1_insert_rules
    [(str "a", Node.directory [(str "c", Node.symlink (str "old"))]
      { mode := 0o755, owner := none, group := none } true)]
    { mode := 0o755, owner := none, group := none } false (str "a")
    (Node.directory [(str "c", Node.symlink (str "new")), (str "d", Node.symlink (str "d"))]
      { mode := 0o700, owner := none, group := none } false) (str "/")
  have h2m := h2.2.1 [(str "c", Node.symlink (str "old"))]
    { mode := 0o755, owner := none, group := none }
    [(str "c", Node.symlink (str "new")), (str "d", Node.symlink (str "d"))]
    { mode := 0o700, owner := none, group := none } false rfl rfl (by decide)
  have h3 := claim_C1_insert_rules [] { mode := 0o755, owner := none, group := none } false
    (str "v") (Node.symlink (str "u")) (str "/etc/f")
  have h4 := claim_C1_insert_rules [] { mode := 0o755, owner := none, group := none } false
    (str "v") (Node.symlink (str "u")) (str "/etc/l")
  have h5 := claim_C1_insert_rules [] { mode := 0o755, owner := none, group := none } false
    (str "v") (Node.symlink (str "u")) (str "")
  refine ⟨?_, ?_, ?_, ?_, ?_, ?_, ?_⟩
  · exact h.1 (Node.regularFile (str "x") { mode := 0o644, owner := none, group := none })
      rfl (by decide)
  · rw [h2m.1]
  · exact (h2m.2.2 (str "c")).trans (by rfl)
  · exact (h2m.2.2 (str "d")).trans (by rfl)
  · rw [h3.2.2.1 (str "x") { mode := 0o644, owner := none, group := none } (str "p") []]
  · rw [h4.2.2.2.1 (str "t") (str "p") []]
  · exact (h5.2.2.2.2.2 (str "w") [] rfl).1

/-! ## Claim C2 -/

/-- Concrete package with the implicit filesystem root the parser creates
(`NewDirectory()` with `Implicit = true`) holding one child `a`. -/
def pkgC2 : Package :=
  { name := str "demo", version := str "1.0", requires := [], provides := [],
    conflicts := [], replaces := [], actions := [],
    fsRoot := Node.directory
      [(str "a", Node.regularFile (str "x") { mode := 0o644, owner := none, group := none })]
      { mode := 0o755, owner := none, group := none } true }

/-- A declared (non-implicit) directory a user could write for path `/`. -/
def declRootC2 : Node :=
  Node.directory [] { mode := 0o700, owner := none, group := none } false

/-- State of `pkgC2` after `InsertFSNode("/", declRootC2)`. -/
def pkgC2After : Package × Option PkgError :=
  Package.insertFSNode pkgC2 (str "/") declRootC2

/-- Counterexample to C2: inserting a declared Directory at the absolute
path `/` does **not** replace the implicit filesystem root.
`filepath.Rel("/", "/")` yields `"."`, so the declared directory is stored
as a child of the root under the name `"."`; the root keeps its implicit
flag (the claimed replacement would be the declared, non-implicit node) and
keeps its children untouched rather than handing them to the new node. -/
theorem claim_C2_counterexample :
    pkgC2After.2 = none
    ∧ isImplicitDirNode pkgC2After.1.fsRoot = true
    ∧ isImplicitDirNode declRootC2 = false
    ∧ lookupEntry (nodeEntries pkgC2After.1.fsRoot) (str ".") = some declRootC2
    ∧ lookupEntry (nodeEntries pkgC2After.1.fsRoot) (str "a")
        = some (Node.regularFile (str "x") { mode := 0o644, owner := none, group := none })
    ∧ nodeEntries declRootC2 = [] := by
  exact ⟨rfl, rfl, rfl, rfl, rfl, rfl⟩

/-- C2 (amended): inserting a declared Directory node at the absolute path
`/` via `Package.InsertFSNode` does not touch the root node itself: the
path `/` resolves to the relative path `.`, so the node is inserted as a
child of the root under the name `.` (succeeding whenever no `.` entry
exists); the root directory, its implicit flag and its existing children
all stay in place — the filesystem root remains the same Directory. -/
theorem claim_C2_amended (pkg : Package) (es : List (Str × Node)) (m : NodeMetadata)
    (impl : Bool) (B : Node)
    (hroot : pkg.fsRoot = Node.directory es m impl)
    (hdot : lookupEntry es (str ".") = none) :
    (Package.insertFSNode pkg (str "/") B).2 = none
    ∧ (Package.insertFSNode pkg (str "/") B).1.fsRoot
        = Node.directory (mapSet es (str ".") B) m impl
    ∧ lookupEntry (mapSet es (str ".") B) (str ".") = some B
    ∧ (∀ k, k ≠ str "." → lookupEntry (mapSet es (str ".") B) k = lookupEntry es k) := by
  have hseg : relSegmentsFromRoot (str "/") = some [str "."] := rfl
  refine ⟨?_, ?_, ?_, ?_⟩
  · simp [Package.insertFSNode, hseg, hroot, Node.insert, hdot]
  · simp [Package.insertFSNode, hseg, hroot, Node.insert, hdot]
  · exact Lemmas.lookupEntry_mapSet_self es (str ".") B
  · intro k hk
    exact Lemmas.lookupEntry_mapSet_other es (str ".") k B hk

/-- Witness for the amended C2 at a concrete package. -/
theorem claim_C2_witness :
    (Package.insertFSNode pkgC2 (str "/") declRootC2).2 = none
    ∧ (Package.insertFSNode pkgC2 (str "/") declRootC2).1.fsRoot
        = Node.directory
            (mapSet
              [(str "a", Node.regularFile (str "x")
                { mode := 0o644, owner := none, group := none })]
              (str ".") declRootC2)
            { mode := 0o755, owner := none, group := none } true := by
  have h := claim_C2_amended pkgC2
    [(str "a", Node.regularFile (str "x") { mode := 0o644, owner := none, group := none })]
    { mode := 0o755, owner := none, group := none } true declRootC2 rfl rfl
  exact ⟨h.1, h.2.1⟩

/-! ## Pacman requirement resolution (relations.go) -/

/-- Go map from package name to accept flag, as an association list with
unique keys (insertion-ordered; the order is unobservable because the only
iteration is sorted afterwards). -/
def boolMapSet : List (Str × Bool) → Str → Bool → List (Str × Bool)
  | [], k, v => [(k, v)]
  | (k₀, v₀) :: rest, k, v =>
    if k₀ = k then (k, v) :: rest else (k₀, v₀) :: boolMapSet rest k v

/-- Go map read with zero value `false` for absent keys. -/
def boolMapGet : List (Str × Bool) → Str → Bool
  | [], _ => false
  | (k₀, v₀) :: rest, k => if k₀ = k then v₀ else boolMapGet rest k

/-- Go `delete(m, k)`. -/
def boolMapDel : List (Str × Bool) → Str → List (Str × Bool)
  | [], _ => []
  | (k₀, v₀) :: rest, k => if k₀ = k then rest else (k₀, v₀) :: boolMapDel rest k

/-- Ascending insertion into a sorted string list (`sort.Strings` /
`sort.Sort(byRelatedPackage ...)` are realised by insertion sort; all lists
sorted here have pairwise-distinct or order-irrelevant entries). -/
def insertSortedStr (a : Str) : List Str → List Str
  | [] => [a]
  | b :: rest => if strLt b a then b :: insertSortedStr a rest else a :: b :: rest

/-- Sorts a list of strings ascending. -/
def sortStrs (l : List Str) : List Str := l.foldr insertSortedStr []

/-- Shallow embedding of `compilePackageRelations` (pacman/relations.go):
renders one `relType = name` line per constraint-free relation and one
`relType = nameOPversion` line per constraint, newline-joined with a
trailing newline. -/
def compilePackageRelations (relType : Str) (rels : List PackageRelation) : Str :=
  if rels.isEmpty then []
  else
    let lines := rels.flatMap fun rel =>
      if rel.constraints.isEmpty then [relType ++ str " = " ++ rel.relatedPackage]
      else rel.constraints.map fun c =>
        relType ++ str " = " ++ rel.relatedPackage ++ c.relation ++ c.version
    List.intercalate (str "\n") lines ++ str "\n"

/-- The mock group resolver (`resolvePackageGroup` under `HOLO_MOCK=1`):
splits the group name on `-`. -/
def mockResolver (groupName : Str) : List Str := splitOnChar '-' groupName

/-- Shallow embedding of `compilePackageRequirements` (pacman/relations.go),
parameterised over the group resolver (the production resolver shells out
to pacman; the mock resolver is total, so no error path remains).  Note
`actualRels := make([]build.PackageRelation, len(rels))`: the slice starts
with `len(rels)` zero-value relations, which the `append` calls extend —
this is embedded faithfully via `List.replicate`. -/
def compilePackageRequirements (relType : Str) (rels : List PackageRelation)
    (resolver : Str → List Str) : Str :=
  let init : List (Str × Bool) × List PackageRelation :=
    ([], List.replicate rels.length { relatedPackage := [], constraints := [] })
  let afterRead := rels.foldl
    (fun st rel =>
      let name0 := rel.relatedPackage
      let isNegated := hasPfx name0 (str "except:")
      let name1 := trimPfx name0 (str "except:")
      let isGroup := hasPfx name1 (str "group:")
      let name2 := trimPfx name1 (str "group:")
      if isGroup then
        ((resolver name2).foldl (fun m p => boolMapSet m p (!isNegated)) st.1, st.2)
      else
        (boolMapSet st.1 name2 (!isNegated), if isNegated then st.2 else st.2 ++ [rel]))
    init
  let pruned := afterRead.2.foldl
    (fun st rel =>
      (if boolMapGet st.2 rel.relatedPackage then st.1 ++ [rel] else st.1,
        boolMapDel st.2 rel.relatedPackage))
    (([] : List PackageRelation), afterRead.1)
  let additionalNames := sortStrs ((pruned.2.filter fun kv => kv.2 = true).map Prod.fst)
  let additionalRels : List PackageRelation :=
    additionalNames.map fun nm => { relatedPackage := nm, constraints := [] }
  compilePackageRelations relType (pruned.1 ++ additionalRels)

/-! ## Claim C6 -/

/-- C6 (failing input): because `actualRels` is created as
`make([]build.PackageRelation, len(rels))` and then appended to, it starts
with `len(rels)` zero-value relations.  When a group expansion accepts the
empty package name (mock resolver, group `a-`), the first placeholder
survives pruning and an extra `depend = ` line is emitted **before** the
directly-referenced relations — the claim instead describes the output as
the accepted direct relations followed by the sorted trivial ones (which
would be `depend = b`, `depend = `, `depend = a`).  The claim's own
concrete example is unaffected and evaluates as stated. -/
theorem claim_C6_requirements_eval :
    compilePackageRequirements (str "depend")
      [{ relatedPackage := str "b", constraints := [] },
       { relatedPackage := str "group:a-", constraints := [] }] mockResolver
      = str "depend = \ndepend = b\ndepend = a\n"
    ∧ str "depend = \ndepend = b\ndepend = a\n" ≠ str "depend = b\ndepend = \ndepend = a\n"
    ∧ compilePackageRequirements (str "depend")
        [{ relatedPackage := str "group:a-b-c", constraints := [] },
         { relatedPackage := str "except:b", constraints := [] }] mockResolver
        = str "depend = a\ndepend = c\n" := by
  exact ⟨by decide, by decide, by decide⟩

/-! ## Claim C7 -/

/-- Octal escape `fmt.Sprintf("\\%03o", byt)` for a byte, as raw bytes. -/
def octalEscape (byt : Nat) : List Nat :=
  [0x5C, 48 + byt / 64 % 8, 48 + byt / 8 % 8, 48 + byt % 8]

/-- Shallow embedding of `mtreeEscapeString` (pacman/mtree.go), on the byte
level exactly as the source: bytes with `byt > ' ' && byt <= '~'` pass
through, all others are written as a backslash plus three octal digits. -/
def mtreeEscapeString (input : List Nat) : List Nat :=
  input.flatMap fun byt =>
    if 0x20 < byt ∧ byt ≤ 0x7E then [byt] else octalEscape byt

/-- C7 (failing input): the backslash byte 0x5C satisfies
`byt > ' ' && byt <= '~'` and passes through unescaped, although the claim
(and the mtree(5) quotation right above the function) requires `\\134`;
bytes ≤ 0x20 and > 0x7E are escaped as the claim states (shown at 0x20 and
0x7F), and printable non-backslash bytes pass through. -/
theorem claim_C7_mtree_escape_eval :
    mtreeEscapeString [0x5C] = [0x5C]
    ∧ mtreeEscapeString [0x5C] ≠ [0x5C, 49, 51, 52]
    ∧ mtreeEscapeString [0x20] = [0x5C, 48, 52, 48]
    ∧ mtreeEscapeString [0x7F] = [0x5C, 49, 55, 55]
    ∧ mtreeEscapeString [0x41] = [0x41] := by
  exact ⟨by decide, by decide, by decide, by decide, by decide⟩

/-! ## Claim C9 -/

/-- Errors surfacing from `WriteOutput`. -/
inductive WriteError where
  | differentContents -- "file already exists and has different contents; won't overwrite without --force"
  | ioEOF             -- io.EOF propagated out of readerEqualTo
deriving DecidableEq, Repr

/-- Outcome of `io.ReadFull(r, buf)` on a file with the given contents:
filled when the file has at least `n` bytes, `io.EOF` when it is empty (and
`n > 0`), `io.ErrUnexpectedEOF` when it has some but fewer than `n` bytes. -/
inductive ReadFullOutcome where
  | filled (buf : List Nat)
  | eofErr
  | unexpectedEOF
deriving DecidableEq, Repr

/-- Model of `io.ReadFull` over the file contents. -/
def readFull (contents : List Nat) (n : Nat) : ReadFullOutcome :=
  if n ≤ contents.length then ReadFullOutcome.filled (contents.take n)
  else if contents.length = 0 then ReadFullOutcome.eofErr
  else ReadFullOutcome.unexpectedEOF

/-- Shallow embedding of `readerEqualTo` (common/output.go): reads
`len(str)` bytes and compares — a longer file with the same prefix
compares equal, `io.EOF` from an empty file is propagated as an error. -/
def readerEqualTo (contents pkgBytes : List Nat) : Bool × Option WriteError :=
  match readFull contents pkgBytes.length with
  | ReadFullOutcome.unexpectedEOF => (false, none)
  | ReadFullOutcome.filled buf => (decide (buf = pkgBytes), none)
  | ReadFullOutcome.eofErr => (false, some WriteError.ioEOF)

/-- Result of the output-writing step: the returned `wasWritten` flag, the
returned error, and the file contents after the call. -/
structure WriteResult where
  wasWritten : Bool
  err : Option WriteError
  fileAfter : Option (List Nat)
deriving DecidableEq, Repr

/-- Shallow embedding of `WriteOutput` (common/output.go) for a file target
(`pkgFile` neither `-` nor missing), with the filesystem abstracted to the
optional current contents of the target file. -/
def writeOutput (pkgBytes : List Nat) (withForce : Bool)
    (existing : Option (List Nat)) : WriteResult :=
  if withForce = false then
    match existing with
    | some contents =>
      let r := readerEqualTo contents pkgBytes
      if r.1 = true ∨ r.2.isSome then
        { wasWritten := false, err := r.2, fileAfter := some contents }
      else
        { wasWritten := true, err := some WriteError.differentContents,
          fileAfter := some contents }
    | none => { wasWritten := true, err := none, fileAfter := some pkgBytes }
  else { wasWritten := true, err := none, fileAfter := some pkgBytes }

/-- Exit code of the write step in `main` (main.go): any error from
`WriteOutput` exits 2, otherwise the process exits 0. -/
def writeExitCode (r : WriteResult) : Nat :=
  if r.err.isSome then 2 else 0

/-- C9 (failing input): with an existing file `ab` and package bytes `a`
(no `--force`), the contents differ but `readerEqualTo` only compares the
first `len(pkgBytes)` bytes, so `WriteOutput` reports success without
writing and the process exits 0 — the claim requires the
won't-overwrite error and exit code 2.  The equal-contents case behaves as
claimed (success, no write, exit 0). -/
theorem claim_C9_write_output_eval :
    writeOutput [97] false (some [97]) =
      { wasWritten := false, err := none, fileAfter := some [97] }
    ∧ writeExitCode (writeOutput [97] false (some [97])) = 0
    ∧ writeOutput [97] false (some [97, 98]) =
      { wasWritten := false, err := none, fileAfter := some [97, 98] }
    ∧ writeExitCode (writeOutput [97] false (some [97, 98])) = 0
    ∧ [97] ≠ [97, 98]
    ∧ writeOutput [97] false (some [98]) =
      { wasWritten := true, err := some WriteError.differentContents,
        fileAfter := some [98] } := by
  exact ⟨by decide, by decide, by decide, by decide, by decide, by decide⟩

/-! ## Holo integration and build orchestration (main.go, holo.go) -/

/-- Ascending insertion keeping the list duplicate-free: the model of
adding a key to the `plugins` set and reading the keys back through
`sort.Strings`. -/
def insertSortedUnique (a : Str) : List Str → List Str
  | [] => [a]
  | b :: rest =>
    if a = b then b :: rest
    else if strLt b a then b :: insertSortedUnique a rest else a :: b :: rest

/-- Key set of a Go `map[string]bool` used as a set, iterated in sorted
order. -/
def sortStrsDedup (l : List Str) : List Str :=
  l.foldl (fun acc a => insertSortedUnique a acc) []

/-- Plugin-id extraction of `DoMagicalHoloIntegration`: paths strictly
below `/usr/share/holo/<id>` (split on `/` into more than 5 parts)
contribute part 4. -/
def pluginIDFromPath (path : Str) : Option Str :=
  if hasPfx path (str "/usr/share/holo/") then
    let pathParts := splitOnChar '/' path
    if pathParts.length > 5 then some (pathParts.getD 4 []) else none
  else none

/-- All plugin ids referenced by the package's filesystem tree, sorted. -/
def collectPluginIDs (pkg : Package) : List Str :=
  sortStrsDedup ((walkPairs pkg.fsRoot (str "/")).filterMap fun pr => pluginIDFromPath pr.1)

/-- The requirement name `holo-<id>`. -/
def holoDepName (pluginID : Str) : Str := str "holo-" ++ pluginID

/-- Does the requirement list already name `holo-<id>`? -/
def hasHoloDep (reqs : List PackageRelation) (pluginID : Str) : Bool :=
  reqs.any fun rel => rel.relatedPackage = holoDepName pluginID

/-- The requirement loop of `DoMagicalHoloIntegration`: for each plugin id
in sorted order, append `holo-<id>` unless already present. -/
def addHoloDeps (reqs : List PackageRelation) (ids : List Str) : List PackageRelation :=
  ids.foldl
    (fun acc pluginID =>
      if hasHoloDep acc pluginID then acc
      else acc ++ [{ relatedPackage := holoDepName pluginID, constraints := [] }])
    reqs

/-- Shallow embedding of `DoMagicalHoloIntegration` (holo.go): collect the
plugin ids, and when any exist, append the missing `holo-<id>`
requirements and prepend the two `holo apply` actions. -/
def doMagicalHoloIntegration (pkg : Package) : Package :=
  let pluginIDs := collectPluginIDs pkg
  if pluginIDs.isEmpty then pkg
  else
    { pkg with
      requires := addHoloDeps pkg.requires pluginIDs,
      actions :=
        [{ type := 0, content := str "holo apply" },
         { type := 1, content := str "holo apply" }] ++ pkg.actions }

/-- The package states the two downstream stages of `main` (main.go)
observe: `generator.Validate()` is called on the package as parsed;
`DoMagicalHoloIntegration(pkg)` runs afterwards, so only
`generator.Build()` sees its effect. -/
structure MainStages where
  validatedPackage : Package
  builtPackage : Package

/-- Straight-line embedding of the orchestration order in `main`:
parse → validate → holo integration → build. -/
def runMain (parsed : Package) : MainStages :=
  { validatedPackage := parsed,
    builtPackage := doMagicalHoloIntegration parsed }

/-- Specification-side description of the appended requirements: one
unconstrained `holo-<id>` per collected plugin id not already required,
in sorted id order. -/
def newHoloDeps (pkg : Package) : List PackageRelation :=
  ((collectPluginIDs pkg).filter fun i => !(hasHoloDep pkg.requires i)).map
    fun i => { relatedPackage := holoDepName i, constraints := [] }

namespace Lemmas

theorem mem_insertSortedUnique {x a : Str} {l : List Str}
    (h : x ∈ insertSortedUnique a l) : x = a ∨ x ∈ l := by
  induction l with
  | nil => simpa [insertSortedUnique] using h
  | cons b rest ih =>
    by_cases h1 : a = b
    · simp [insertSortedUnique, h1] at h
      rcases h with h | h
      · exact Or.inr (by simp [h])
      · exact Or.inr (by simp [h])
    · by_cases h2 : strLt b a
      · simp only [insertSortedUnique, h1, h2, if_false, if_true, List.mem_cons] at h
        rcases h with h | h
        · exact Or.inr (by simp [h])
        · rcases ih h with h3 | h3
          · exact Or.inl h3
          · exact Or.inr (by simp [h3])
      · simp only [insertSortedUnique, h1, h2, if_false, List.mem_cons] at h
        rcases h with h | h
        · exact Or.inl h
        · exact Or.inr (by simpa using h)

theorem pairwise_insertSortedUnique {a : Str} {l : List Str}
    (h : l.Pairwise strLt) : (insertSortedUnique a l).Pairwise strLt := by
  induction l with
  | nil => simp [insertSortedUnique, List.Pairwise]
  | cons b rest ih =>
    rw [List.pairwise_cons] at h
    by_cases h1 : a = b
    · rw [insertSortedUnique]
      simp only [h1, if_true]
      exact List.pairwise_cons.2 h
    · by_cases h2 : strLt b a
      · rw [insertSortedUnique]
        simp only [h1, h2, if_false, if_true]
        refine List.pairwise_cons.2 ⟨?_, ih h.2⟩
        intro x hx
        rcases mem_insertSortedUnique hx with h3 | h3
        · exact h3 ▸ h2
        · exact h.1 x h3
      · have h3 : strLt a b := by
          rcases lt_trichotomy a b with h4 | h4 | h4
          · exact h4
          · exact absurd h4 h1
          · exact absurd h4 h2
        rw [insertSortedUnique]
        simp only [h1, h2, if_false]
        refine List.pairwise_cons.2 ⟨?_, List.pairwise_cons.2 h⟩
        intro x hx
        rcases List.mem_cons.1 hx with h4 | h4
        · exact h4 ▸ h3
        · exact lt_trans h3 (h.1 x h4)

theorem pairwise_sortStrsDedup (l : List Str) : (sortStrsDedup l).Pairwise strLt := by
  have general : ∀ (l acc : List Str), acc.Pairwise strLt →
      (l.foldl (fun acc a => insertSortedUnique a acc) acc).Pairwise strLt := by
    intro l
    induction l with
    | nil => intro acc h; simpa using h
    | cons a rest ih =>
      intro acc h
      exact ih _ (pairwise_insertSortedUnique h)
  exact general l [] (by simp)

theorem holoDepName_inj {i j : Str} (h : holoDepName i = holoDepName j) : i = j := by
  unfold holoDepName at h
  exact List.append_cancel_left h

theorem addHoloDeps_spec (ids : List Str) (hn : ids.Pairwise (fun a b => a ≠ b)) :
    ∀ (reqs : List PackageRelation),
      addHoloDeps reqs ids =
        reqs ++ (ids.filter fun i => !(hasHoloDep reqs i)).map
          (fun i => { relatedPackage := holoDepName i, constraints := [] }) := by
  induction ids with
  | nil => intro reqs; simp [addHoloDeps]
  | cons i rest ih =>
    intro reqs
    rw [List.pairwise_cons] at hn
    by_cases hd : hasHoloDep reqs i
    · have step : addHoloDeps reqs (i :: rest) = addHoloDeps reqs rest := by
        simp [addHoloDeps, hd]
      rw [step, ih hn.2 reqs]
      simp [hd]
    · have step : addHoloDeps reqs (i :: rest) =
          addHoloDeps (reqs ++ [{ relatedPackage := holoDepName i, constraints := [] }]) rest := by
        simp [addHoloDeps, hd]
      rw [step, ih hn.2]
      have hfil : rest.filter
            (fun j => !(hasHoloDep (reqs ++ [{ relatedPackage := holoDepName i, constraints := [] }]) j))
          = rest.filter (fun j => !(hasHoloDep reqs j)) := by
        apply List.filter_congr
        intro j hj
        have hij : i ≠ j := hn.1 j hj
        have : hasHoloDep (reqs ++ [{ relatedPackage := holoDepName i, constraints := [] }]) j
            = hasHoloDep reqs j := by
          unfold hasHoloDep
          rw [List.any_append]
          have : ¬ (holoDepName i = holoDepName j) := fun hh => hij (holoDepName_inj hh)
          simp [this]
        rw [this]
      rw [hfil]
      simp [hd]

end Lemmas

/-! ## Claim C8 -/

/-- A concrete package delivering one file strictly below
`/usr/share/holo/foo`, with no requirements and no actions. -/
def pkgC8 : Package :=
  { name := str "demo", version := str "1.0", requires := [], provides := [],
    conflicts := [], replaces := [], actions := [],
    fsRoot := Node.directory
      [(str "usr", Node.directory
        [(str "share", Node.directory
          [(str "holo", Node.directory
            [(str "foo", Node.directory
              [(str "x", Node.regularFile (str "c")
                { mode := 0o644, owner := none, group := none })]
              { mode := 0o755, owner := none, group := none } true)]
            { mode := 0o755, owner := none, group := none } true)]
          { mode := 0o755, owner := none, group := none } true)]
        { mode := 0o755, owner := none, group := none } true)]
      { mode := 0o755, owner := none, group := none } true }

/-- Counterexample to C8: in `main` the Holo integration runs **after**
`generator.Validate()` (the call order is parse → validate → holo
integration → build), so validation observes the pre-integration package:
for a package with a file below `/usr/share/holo/foo`, the validated
package still has an empty requirement list while the holo-integrated
package requires `holo-foo`. -/
theorem claim_C8_counterexample :
    (runMain pkgC8).validatedPackage.requires = []
    ∧ (doMagicalHoloIntegration pkgC8).requires
        = [{ relatedPackage := str "holo-foo", constraints := [] }]
    ∧ (runMain pkgC8).validatedPackage.requires ≠ (doMagicalHoloIntegration pkgC8).requires := by
  exact ⟨rfl, by decide, by decide⟩

/-- C8 (amended): the orchestrator performs the Holo integration
(collecting the plugin ids of FST paths strictly below
`/usr/share/holo/<id>`, appending an unconstrained `holo-<id>` requirement
for each id not already required, in name-sorted order, and prepending the
two `holo apply` setup/cleanup actions) after parsing and **after** the
back-end's validation, immediately before `Build()` — validation observes
the package as parsed, and only the build observes the augmented package. -/
theorem claim_C8_amended (pkg : Package) :
    (runMain pkg).validatedPackage = pkg
    ∧ (runMain pkg).builtPackage = doMagicalHoloIntegration pkg
    ∧ (doMagicalHoloIntegration pkg).requires = pkg.requires ++ newHoloDeps pkg
    ∧ (collectPluginIDs pkg ≠ [] →
        (doMagicalHoloIntegration pkg).actions =
          [{ type := 0, content := str "holo apply" },
           { type := 1, content := str "holo apply" }] ++ pkg.actions)
    ∧ (collectPluginIDs pkg = [] → doMagicalHoloIntegration pkg = pkg)
    ∧ (collectPluginIDs pkg).Pairwise strLt := by
  refine ⟨rfl, rfl, ?_, ?_, ?_, ?_⟩
  · by_cases h : (collectPluginIDs pkg).isEmpty
    · have hnil : collectPluginIDs pkg = [] := by simpa using h
      simp [doMagicalHoloIntegration, h, newHoloDeps, hnil]
    · have hpw : (collectPluginIDs pkg).Pairwise (fun a b => a ≠ b) :=
        (Lemmas.pairwise_sortStrsDedup _).imp fun hlt => ne_of_lt hlt
      simp only [doMagicalHoloIntegration, h, if_false, Bool.false_eq_true]
      simpa [newHoloDeps] using Lemmas.addHoloDeps_spec (collectPluginIDs pkg) hpw pkg.requires
  · intro h
    have h2 : ¬ (collectPluginIDs pkg).isEmpty := by simpa using h
    simp [doMagicalHoloIntegration, h2]
  · intro h
    simp [doMagicalHoloIntegration, h]
  · exact Lemmas.pairwise_sortStrsDedup _

/-- Witness for the amended C8: the concrete package with a
`/usr/share/holo/foo/x` file gains exactly the `holo-foo` requirement and
the two prepended `holo apply` actions, while a package without holo files
is untouched. -/
theorem claim_C8_witness :
    (runMain pkgC8).validatedPackage = pkgC8
    ∧ (runMain pkgC8).builtPackage = doMagicalHoloIntegration pkgC8
    ∧ (doMagicalHoloIntegration pkgC8).requires = pkgC8.requires ++ newHoloDeps pkgC8
    ∧ (doMagicalHoloIntegration pkgC8).actions =
        [{ type := 0, content := str "holo apply" },
         { type := 1, content := str "holo apply" }] ++ pkgC8.actions
    ∧ doMagicalHoloIntegration pkgC2 = pkgC2 := by
  have h := claim_C8_amended pkgC8
  have h2 := claim_C8_amended pkgC2
  exact ⟨h.1, h.2.1, h.2.2.1, h.2.2.2.1 (by decide), h2.2.2.2.2.1 (by decide)⟩

/-! ## RPM signature header (rpm/generator.go, rpm/signature.go) -/

/-- An index record of an RPM header structure (`rpmHeaderIndexRecord`). -/
structure RpmIndexRecord where
  tag : Nat
  type : Nat
  offset : Nat
  count : Nat
deriving DecidableEq, Repr

/-- An RPM header structure under construction (`rpmHeader`). -/
structure RpmHeader where
  records : List RpmIndexRecord
  data : List Nat
  hasI18NTable : Bool
deriving DecidableEq, Repr

/-- Big-endian encoding of a 32-bit value (`binary.Write` of an
int32/uint32). -/
def beBytes4 (v : Nat) : List Nat :=
  [v / 2 ^ 24 % 256, v / 2 ^ 16 % 256, v / 2 ^ 8 % 256, v % 256]

/-- `rpmHeader.AddInt32Value`: skipped when empty, the data store is
zero-padded to 4-byte alignment, one index record of type INT32 (4) is
appended, then the big-endian values. -/
def addInt32Value (h : RpmHeader) (tag : Nat) (vals : List Nat) : RpmHeader :=
  if vals.isEmpty then h
  else
    let padded := h.data ++ List.replicate ((4 - h.data.length % 4) % 4) 0
    { records := h.records ++ [{ tag := tag, type := 4, offset := padded.length, count := vals.length }],
      data := padded ++ vals.flatMap beBytes4,
      hasI18NTable := h.hasI18NTable }

/-- `rpmHeader.AddStringArrayValue`: skipped when empty; type
STRING_ARRAY (8); each string NUL-terminated. -/
def addStringArrayValue (h : RpmHeader) (tag : Nat) (vals : List (List Nat)) : RpmHeader :=
  if vals.isEmpty then h
  else
    { records := h.records ++
        [{ tag := tag, type := 8, offset := h.data.length, count := vals.length }],
      data := h.data ++ vals.flatMap (fun s => s ++ [0]),
      hasI18NTable := h.hasI18NTable }

/-- `rpmHeader.AddStringValue`: type STRING (6) or I18NSTRING (9, after
lazily adding the I18N table `["C"]` at tag 100); count 1; the bytes plus a
NUL terminator. -/
def addStringValue (h : RpmHeader) (tag : Nat) (s : List Nat) (i18n : Bool) : RpmHeader :=
  let recordType := if i18n then 9 else 6
  let h1 :=
    if i18n && !h.hasI18NTable then
      let h2 := addStringArrayValue h 100 [[67]]
      { records := h2.records, data := h2.data, hasI18NTable := true }
    else h
  { records := h1.records ++
      [{ tag := tag, type := recordType, offset := h1.data.length, count := 1 }],
    data := h1.data ++ s ++ [0],
    hasI18NTable := h1.hasI18NTable }

/-- `rpmHeader.AddBinaryValue`: type BIN (7); count is the byte count; no
alignment, no terminator. -/
def addBinaryValue (h : RpmHeader) (tag : Nat) (bytes : List Nat) : RpmHeader :=
  { records := h.records ++
      [{ tag := tag, type := 7, offset := h.data.length, count := bytes.length }],
    data := h.data ++ bytes,
    hasI18NTable := h.hasI18NTable }

/-- The compressed CPIO payload (`rpmPayload`); the sizes are uint32 in the
source. -/
structure RpmPayload where
  binary : List Nat
  compressedSize : Nat
  uncompressedSize : Nat
deriving DecidableEq, Repr

/-- Shallow embedding of `makeSignatureSection` (rpm/signature.go) up to
binary serialisation: the signature header holds `sigtagSize` =
`uint32(len(headerSection)) + payload.CompressedSize` (wrapping uint32
arithmetic), `sigtagPayloadSize` = the uncompressed size, `sigtagSHA1` =
the hex SHA-1 digest of exactly the header-section bytes, and `sigtagMD5`
= the raw MD5 digest of the header-section bytes followed by the
compressed payload bytes.  The two digest functions of Go's standard
library are abstracted as parameters. -/
def makeSignatureHeader (sha1hex md5sum : List Nat → List Nat)
    (headerSection : List Nat) (payload : RpmPayload) : RpmHeader :=
  let h0 : RpmHeader := { records := [], data := [], hasI18NTable := false }
  let h1 := addInt32Value h0 1000
    [(headerSection.length % 2 ^ 32 + payload.compressedSize % 2 ^ 32) % 2 ^ 32]
  let h2 := addInt32Value h1 1007 [payload.uncompressedSize % 2 ^ 32]
  let h3 := addStringValue h2 269 (sha1hex headerSection) false
  addBinaryValue h3 1004 (md5sum (headerSection ++ payload.binary))

/-- First index record carrying the given tag. -/
def findRecord (h : RpmHeader) (tag : Nat) : Option RpmIndexRecord :=
  h.records.find? fun r => r.tag == tag

/-- Reads a NUL-terminated string out of the data store. -/
def readCString (data : List Nat) (off : Nat) : List Nat :=
  (data.drop off).takeWhile fun b => b != 0

/-- Reads `count` raw bytes out of the data store. -/
def readBytesAt (data : List Nat) (off count : Nat) : List Nat :=
  (data.drop off).take count

/-- Reads a big-endian INT32 out of the data store. -/
def readInt32At (data : List Nat) (off : Nat) : Nat :=
  match (data.drop off).take 4 with
  | [a, b, c, d] => a * 2 ^ 24 + b * 2 ^ 16 + c * 2 ^ 8 + d
  | _ => 0

namespace Lemmas

theorem takeWhile_append_zero (l rest : List Nat) (h : ∀ b ∈ l, b ≠ 0) :
    (l ++ 0 :: rest).takeWhile (fun b => b != 0) = l := by
  induction l with
  | nil => simp [List.takeWhile]
  | cons a tl ih =>
    have ha : (a != 0) = true := by
      simpa using h a (by simp)
    simp only [List.cons_append, List.takeWhile, ha]
    simp [ih fun b hb => h b (by simp [hb])]

end Lemmas

/-! ## Claim C4 -/

/-- C4: in the signature header of every built RPM, the SHA-1 tag (269,
STRING) holds the hex SHA-1 digest of exactly the immutable-header bytes,
the MD5 tag (1004, BIN) holds the raw MD5 of the immutable-header bytes
concatenated with the compressed payload bytes, the size tag (1000, INT32)
holds the immutable-header length plus the compressed payload size, and
the payload-size tag (1007, INT32) holds the uncompressed payload size.
The digest functions are abstracted; a hex digest contains no NUL byte,
and the realistic size bounds keep the uint32 arithmetic exact. -/
theorem claim_C4_signature_digests (sha1hex md5sum : List Nat → List Nat)
    (headerSection : List Nat) (payload : RpmPayload)
    (hsha : ∀ b ∈ sha1hex headerSection, b ≠ 0)
    (hsize : headerSection.length + payload.compressedSize < 2 ^ 32)
    (hus : payload.uncompressedSize < 2 ^ 32) :
    findRecord (makeSignatureHeader sha1hex md5sum headerSection payload) 269 =
        some { tag := 269, type := 6, offset := 8, count := 1 }
    ∧ readCString (makeSignatureHeader sha1hex md5sum headerSection payload).data 8 =
        sha1hex headerSection
    ∧ findRecord (makeSignatureHeader sha1hex md5sum headerSection payload) 1004 =
        some { tag := 1004, type := 7, offset := 9 + (sha1hex headerSection).length,
               count := (md5sum (headerSection ++ payload.binary)).length }
    ∧ readBytesAt (makeSignatureHeader sha1hex md5sum headerSection payload).data
        (9 + (sha1hex headerSection).length)
        (md5sum (headerSection ++ payload.binary)).length =
        md5sum (headerSection ++ payload.binary)
    ∧ findRecord (makeSignatureHeader sha1hex md5sum headerSection payload) 1000 =
        some { tag := 1000, type := 4, offset := 0, count := 1 }
    ∧ readInt32At (makeSignatureHeader sha1hex md5sum headerSection payload).data 0 =
        headerSection.length + payload.compressedSize
    ∧ findRecord (makeSignatureHeader sha1hex md5sum headerSection payload) 1007 =
        some { tag := 1007, type := 4, offset := 4, count := 1 }
    ∧ readInt32At (makeSignatureHeader sha1hex md5sum headerSection payload).data 4 =
        payload.uncompressedSize := by
  refine ⟨?_, ?_, ?_, ?_, ?_, ?_, ?_, ?_⟩
  · simp [makeSignatureHeader, addInt32Value, addStringValue, addBinaryValue,
      findRecord, beBytes4, List.find?]
  · simp only [makeSignatureHeader, addInt32Value, addStringValue, addBinaryValue,
      readCString]
    simp [beBytes4, List.drop, Lemmas.takeWhile_append_zero _ _ hsha]
  · simp [makeSignatureHeader, addInt32Value, addStringValue, addBinaryValue,
      findRecord, beBytes4, List.find?]
    omega
  · have hdata : (makeSignatureHeader sha1hex md5sum headerSection payload).data =
        (beBytes4 ((headerSection.length % 2 ^ 32 + payload.compressedSize % 2 ^ 32) % 2 ^ 32)
          ++ beBytes4 (payload.uncompressedSize % 2 ^ 32)
          ++ sha1hex headerSection ++ [0])
        ++ md5sum (headerSection ++ payload.binary) := by
      simp [makeSignatureHeader, addInt32Value, addStringValue, addBinaryValue, beBytes4]
    have hpre : (beBytes4 ((headerSection.length % 2 ^ 32 + payload.compressedSize % 2 ^ 32) % 2 ^ 32)
          ++ beBytes4 (payload.uncompressedSize % 2 ^ 32)
          ++ sha1hex headerSection ++ [0]).length = 9 + (sha1hex headerSection).length := by
      simp [beBytes4]
      omega
    rw [readBytesAt, hdata, ← hpre, List.drop_left, List.take_length]
  · simp [makeSignatureHeader, addInt32Value, addStringValue, addBinaryValue,
      findRecord, beBytes4, List.find?]
  · simp only [makeSignatureHeader, addInt32Value, addStringValue, addBinaryValue,
      readInt32At]
    simp [beBytes4, List.drop, List.take]
    omega
  · simp [makeSignatureHeader, addInt32Value, addStringValue, addBinaryValue,
      findRecord, beBytes4, List.find?]
  · simp only [makeSignatureHeader, addInt32Value, addStringValue, addBinaryValue,
      readInt32At]
    simp [beBytes4, List.drop, List.take]
    omega

/-- Witness for C4: the signature-header layout at a concrete header
section, payload and (abstracted) digest functions. -/
theorem claim_C4_witness :
    findRecord (makeSignatureHeader (fun _ => [97, 98]) (fun _ => [1, 2, 3]) [10, 20]
        { binary := [7], compressedSize := 5, uncompressedSize := 6 }) 269 =
      some { tag := 269, type := 6, offset := 8, count := 1 }
    ∧ readCString (makeSignatureHeader (fun _ => [97, 98]) (fun _ => [1, 2, 3]) [10, 20]
        { binary := [7], compressedSize := 5, uncompressedSize := 6 }).data 8 = [97, 98]
    ∧ readBytesAt (makeSignatureHeader (fun _ => [97, 98]) (fun _ => [1, 2, 3]) [10, 20]
        { binary := [7], compressedSize := 5, uncompressedSize := 6 }).data 11 3 = [1, 2, 3]
    ∧ readInt32At (makeSignatureHeader (fun _ => [97, 98]) (fun _ => [1, 2, 3]) [10, 20]
        { binary := [7], compressedSize := 5, uncompressedSize := 6 }).data 0 = 7
    ∧ readInt32At (makeSignatureHeader (fun _ => [97, 98]) (fun _ => [1, 2, 3]) [10, 20]
        { binary := [7], compressedSize := 5, uncompressedSize := 6 }).data 4 = 6 := by
  have h := claim_C4_signature_digests (fun _ => [97, 98]) (fun _ => [1, 2, 3]) [10, 20]
    { binary := [7], compressedSize := 5, uncompressedSize := 6 }
    (by decide) (by decide) (by decide)
  exact ⟨h.1, h.2.1, h.2.2.2.1, h.2.2.2.2.2.1, h.2.2.2.2.2.2.2⟩

/-! ## Debian ar archive (package.go, debian generator) -/

/-- Byte string of an ASCII literal. -/
def strBytes (s : String) : List Nat := s.toList.map Char.toNat

/-- Right-padding with a fill byte, as `fmt` `%-16s` / `%-10d` produce
(no truncation). -/
def padRightBytes (l : List Nat) (w : Nat) (c : Nat) : List Nat :=
  l ++ List.replicate (w - l.length) c

/-- Decimal digits (ASCII, most significant first) of a natural number, as
`fmt` `%d` renders it. -/
def natDecimal (n : Nat) : List Nat :=
  if h : n < 10 then [48 + n] else natDecimal (n / 10) ++ [48 + n % 10]
  termination_by n
  decreasing_by omega

/-- One `ar` entry header as `buildArArchive` formats it: 16-byte
left-justified name, modification time `0` (12 bytes), owner id `0`
(6 bytes), group id `0` (6 bytes), mode `100644` (8 bytes), 10-byte
left-justified decimal size, and the terminator `` `\n``. -/
def arHeaderBytes (name : List Nat) (size : Nat) : List Nat :=
  padRightBytes name 16 32 ++ strBytes "0           " ++ strBytes "0     "
    ++ strBytes "0     " ++ strBytes "100644  "
    ++ padRightBytes (natDecimal size) 10 32 ++ [0x60, 0x0A]

/-- The single-newline padding appended after entry data of odd length. -/
def arPad (data : List Nat) : List Nat :=
  if data.length % 2 = 1 then [10] else []

/-- Shallow embedding of `buildArArchive` (debian generator): the global
magic followed by, per entry, the header, the data, and the padding byte
for odd data lengths. -/
def buildArArchive (entries : List (List Nat × List Nat)) : List Nat :=
  strBytes "!<arch>\n" ++
    entries.flatMap fun e => arHeaderBytes e.1 e.2.length ++ e.2 ++ arPad e.2

/-- The ar archive built by the Debian generator's `Build()`: entries
`debian-binary` (contents `2.0\n`), `control.tar.gz`, `data.tar.xz`, in
this order, with the tarball bytes abstracted. -/
def debianBuildAr (controlTarGz dataTarXz : List Nat) : List Nat :=
  buildArArchive
    [(strBytes "debian-binary", strBytes "2.0\n"),
     (strBytes "control.tar.gz", controlTarGz),
     (strBytes "data.tar.xz", dataTarXz)]

/-- A parsed ar entry: trimmed name, numeric modification time, owner and
group ids, trimmed mode field, and the data bytes announced by the size
field. -/
structure ArEntry where
  name : List Nat
  mtime : Nat
  uid : Nat
  gid : Nat
  mode : List Nat
  data : List Nat
deriving DecidableEq, Repr

/-- Strips trailing spaces from a fixed-width ar header field. -/
def trimTrailingSpaces (l : List Nat) : List Nat :=
  (l.reverse.dropWhile fun b => b == 32).reverse

/-- Parses a space-padded decimal ar header field. -/
def parseArNumField (field : List Nat) : Option Nat :=
  let digitsPart := field.takeWhile fun b => b != 32
  if digitsPart.all (fun d => decide (48 ≤ d) && decide (d ≤ 57)) && !digitsPart.isEmpty then
    some (digitsPart.foldl (fun a d => a * 10 + (d - 48)) 0)
  else none

/-- Parses one ar entry off the front of the byte stream, checking the
60-byte header layout, the `` `\n`` terminator and the newline padding
after odd-length data; returns the entry and the remaining bytes. -/
def parseArOne (bs : List Nat) : Option (ArEntry × List Nat) :=
  if bs.length < 60 then none
  else
    let nameF := bs.take 16
    let r1 := bs.drop 16
    let mtimeF := r1.take 12
    let r2 := r1.drop 12
    let uidF := r2.take 6
    let r3 := r2.drop 6
    let gidF := r3.take 6
    let r4 := r3.drop 6
    let modeF := r4.take 8
    let r5 := r4.drop 8
    let sizeF := r5.take 10
    let r6 := r5.drop 10
    let term := r6.take 2
    let rest0 := r6.drop 2
    match parseArNumField mtimeF, parseArNumField uidF, parseArNumField gidF,
      parseArNumField sizeF with
    | some mtime, some uid, some gid, some size =>
      if term = [0x60, 0x0A] then
        if size ≤ rest0.length then
          let data := rest0.take size
          let rest1 := rest0.drop size
          if size % 2 = 1 then
            match rest1 with
            | 10 :: rest2 =>
              some ({ name := trimTrailingSpaces nameF, mtime := mtime, uid := uid,
                      gid := gid, mode := trimTrailingSpaces modeF, data := data }, rest2)
            | _ => none
          else
            some ({ name := trimTrailingSpaces nameF, mtime := mtime, uid := uid,
                    gid := gid, mode := trimTrailingSpaces modeF, data := data }, rest1)
        else none
      else none
    | _, _, _, _ => none

/-- Parses a sequence of ar entries (the fuel only bounds the recursion;
every entry consumes at least 60 bytes). -/
def parseArAux : Nat → List Nat → Option (List ArEntry)
  | _, [] => some []
  | 0, _ :: _ => none
  | fuel + 1, b :: bs =>
    match parseArOne (b :: bs) with
    | some (e, rest) => (parseArAux fuel rest).map fun es => e :: es
    | none => none

/-- Parses an ar archive: the magic `!<arch>\n` followed by entries. -/
def parseAr (bs : List Nat) : Option (List ArEntry) :=
  if bs.take 8 = strBytes "!<arch>\n" then parseArAux bs.length (bs.drop 8) else none

namespace Lemmas

/-- Digit bytes, non-emptiness and decimal decode of `natDecimal`. -/
theorem natDecimal_spec (n : Nat) :
    (∀ d ∈ natDecimal n, 48 ≤ d ∧ d ≤ 57) ∧ natDecimal n ≠ [] ∧
      (natDecimal n).foldl (fun a d => a * 10 + (d - 48)) 0 = n := by
  induction n using Nat.strong_induction_on with
  | _ n ih =>
    by_cases h : n < 10
    · rw [natDecimal]
      simp only [h, dif_pos]
      refine ⟨?_, by simp, ?_⟩
      · intro d hd
        simp at hd
        omega
      · simp [List.foldl]
    · rw [natDecimal]
      simp only [h, dif_neg, not_false_iff]
      have hlt : n / 10 < n := by omega
      obtain ⟨ihd, ihne, ihdec⟩ := ih (n / 10) hlt
      refine ⟨?_, by simp, ?_⟩
      · intro d hd
        simp at hd
        rcases hd with hd | hd
        · exact ihd d hd
        · omega
      · rw [List.foldl_append, ihdec]
        simp
        omega

/-- A value below `10 ^ k` (with `k ≥ 1`) has at most `k` decimal digits. -/
theorem natDecimal_length (n : Nat) : ∀ k, 1 ≤ k → n < 10 ^ k →
    (natDecimal n).length ≤ k := by
  induction n using Nat.strong_induction_on with
  | _ n ih =>
    intro k hk hlt
    by_cases h : n < 10
    · rw [natDecimal]
      simp [h]
      omega
    · rw [natDecimal]
      simp only [h, dif_neg, not_false_iff, List.length_append, List.length_cons,
        List.length_nil]
      have hdiv : n / 10 < n := by omega
      have hk2 : 2 ≤ k := by
        by_contra hc
        have : k = 1 := by omega
        subst this
        simp at hlt
        omega
      have h10 : 10 ^ k = 10 ^ (k - 1) * 10 := by
        have hke : k - 1 + 1 = k := by omega
        calc 10 ^ k = 10 ^ (k - 1 + 1) := by rw [hke]
        _ = 10 ^ (k - 1) * 10 := by rw [pow_succ]
      have hstep : n / 10 < 10 ^ (k - 1) := by omega
      have := ih (n / 10) hdiv (k - 1) (by omega) hstep
      omega

/-- `takeWhile` of digit bytes followed by space padding yields the
digits. -/
theorem takeWhile_digits_pad (l : List Nat) (k : Nat)
    (h : ∀ d ∈ l, 48 ≤ d ∧ d ≤ 57) :
    (l ++ List.replicate k 32).takeWhile (fun b => b != 32) = l := by
  induction l with
  | nil =>
    cases k with
    | zero => simp
    | succ k2 => simp [List.replicate, List.takeWhile]
  | cons d tl ih =>
    have hd := h d (by simp)
    have hne : (d != 32) = true := by
      simp only [bne_iff_ne]
      omega
    simp only [List.cons_append, List.takeWhile, hne]
    simp [ih fun b hb => h b (by simp [hb])]

/-- Round trip of the decimal ar size field. -/
theorem parseArNumField_pad (n w : Nat) :
    parseArNumField (padRightBytes (natDecimal n) w 32) = some n := by
  obtain ⟨hd, hne, hdec⟩ := natDecimal_spec n
  have htw : (padRightBytes (natDecimal n) w 32).takeWhile (fun b => b != 32)
      = natDecimal n := takeWhile_digits_pad _ _ hd
  simp only [parseArNumField, htw]
  have hall : (natDecimal n).all (fun d => decide (48 ≤ d) && decide (d ≤ 57)) = true := by
    rw [List.all_eq_true]
    intro d hdm
    have := hd d hdm
    simp [this.1, this.2]
  have hemp : (natDecimal n).isEmpty = false := by
    cases he : natDecimal n with
    | nil => exact absurd he hne
    | cons a l => simp
  simp [hall, hemp, hdec]

/-- Parsing one entry off a stream that starts with a built ar entry
recovers the entry and leaves the rest. -/
theorem parseArOne_build (name data rest : List Nat)
    (hname : name.length ≤ 16)
    (htrim : trimTrailingSpaces (padRightBytes name 16 32) = name)
    (hsize : data.length < 10 ^ 10) :
    parseArOne (arHeaderBytes name data.length ++ (data ++ (arPad data ++ rest))) =
      some ({ name := name, mtime := 0, uid := 0, gid := 0,
              mode := strBytes "100644", data := data }, rest) := by
  have hlen16 : (padRightBytes name 16 32).length = 16 := by
    simp [padRightBytes]
    omega
  have hdig : (natDecimal data.length).length ≤ 10 :=
    natDecimal_length data.length 10 (by omega) hsize
  have hlen10 : (padRightBytes (natDecimal data.length) 10 32).length = 10 := by
    simp [padRightBytes]
    omega
  have l12 : (strBytes "0           ").length = 12 := rfl
  have l6 : (strBytes "0     ").length = 6 := rfl
  have l8 : (strBytes "100644  ").length = 8 := rfl
  have pm12 : parseArNumField (strBytes "0           ") = some 0 := by decide
  have pm6 : parseArNumField (strBytes "0     ") = some 0 := by decide
  have pmode : trimTrailingSpaces (strBytes "100644  ") = strBytes "100644" := by decide
  have hbs : arHeaderBytes name data.length ++ (data ++ (arPad data ++ rest)) =
      padRightBytes name 16 32 ++ (strBytes "0           " ++ (strBytes "0     " ++
        (strBytes "0     " ++ (strBytes "100644  " ++
          (padRightBytes (natDecimal data.length) 10 32 ++
            ([0x60, 0x0A] ++ (data ++ (arPad data ++ rest)))))))) := by
    simp [arHeaderBytes, List.append_assoc]
  rw [hbs]
  have hnotshort : ¬ ((padRightBytes name 16 32 ++ (strBytes "0           " ++ (strBytes "0     " ++
        (strBytes "0     " ++ (strBytes "100644  " ++
          (padRightBytes (natDecimal data.length) 10 32 ++
            ([0x60, 0x0A] ++ (data ++ (arPad data ++ rest))))))))).length < 60) := by
    simp [List.length_append, hlen16, hlen10, l12, l6, l8]
    omega
  rw [parseArOne]
  simp only [hnotshort, if_false, List.take_left' hlen16, List.drop_left' hlen16,
    List.take_left' l12, List.drop_left' l12, List.take_left' l6, List.drop_left' l6,
    List.take_left' l8, List.drop_left' l8, List.take_left' hlen10, List.drop_left' hlen10,
    List.take_left' (rfl : ([0x60, 0x0A] : List Nat).length = 2),
    List.drop_left' (rfl : ([0x60, 0x0A] : List Nat).length = 2),
    pm12, pm6, parseArNumField_pad, htrim, pmode]
  have hle : data.length ≤ (data ++ (arPad data ++ rest)).length := by simp
  have ht2 : List.take 2 ([96, 10] ++ (data ++ (arPad data ++ rest))) = [96, 10] := rfl
  have hd2 : List.drop 2 ([96, 10] ++ (data ++ (arPad data ++ rest)))
      = data ++ (arPad data ++ rest) := rfl
  simp only [ht2, hd2, hle, if_true, List.take_left, List.drop_left]
  by_cases hodd : data.length % 2 = 1
  · simp [arPad, hodd]
  · simp [arPad, hodd]

theorem parseArAux_nil (fuel : Nat) : parseArAux fuel [] = some [] := by
  cases fuel <;> rfl

theorem parseArAux_cons (fuel : Nat) (bs rest : List Nat) (e : ArEntry) (es : List ArEntry)
    (hne : bs ≠ []) (hone : parseArOne bs = some (e, rest))
    (hrest : parseArAux fuel rest = some es) :
    parseArAux (fuel + 1) bs = some (e :: es) := by
  cases bs with
  | nil => exact absurd rfl hne
  | cons b tl => simp [parseArAux, hone, hrest]

theorem arEntryStream_ne_nil (name : List Nat) (s : Nat) (x : List Nat) :
    arHeaderBytes name s ++ x ≠ [] := by
  intro h
  have hlen := congrArg List.length h
  simp [arHeaderBytes, padRightBytes] at hlen

end Lemmas

/-! ## Claim C5 -/

/-- C5: every built Debian package is an ar archive beginning with the
magic `!<arch>\n`, whose entries are exactly `debian-binary` (with literal
contents `2.0\n`), `control.tar.gz` and `data.tar.xz` in this order; every
entry header carries modification time 0, uid 0, gid 0 and mode `100644`
together with the entry's byte size (the parser reads the data back by that
size field), and entry data of odd length is padded with a single newline
byte to a 2-byte boundary (the parser demands exactly one `\n` pad byte
after odd-sized data).  Stated through a byte-level ar parser applied to
the built archive, for arbitrary tarball contents. -/
theorem claim_C5_debian_ar_layout (c d : List Nat)
    (hc : c.length < 10 ^ 10) (hd : d.length < 10 ^ 10) :
    (debianBuildAr c d).take 8 = strBytes "!<arch>\n"
    ∧ parseAr (debianBuildAr c d) = some
        [{ name := strBytes "debian-binary", mtime := 0, uid := 0, gid := 0,
           mode := strBytes "100644", data := strBytes "2.0\n" },
         { name := strBytes "control.tar.gz", mtime := 0, uid := 0, gid := 0,
           mode := strBytes "100644", data := c },
         { name := strBytes "data.tar.xz", mtime := 0, uid := 0, gid := 0,
           mode := strBytes "100644", data := d }] := by
  have hmagic8 : (strBytes "!<arch>\n").length = 8 := rfl
  have hmagic : (debianBuildAr c d).take 8 = strBytes "!<arch>\n" := by
    rw [debianBuildAr, buildArArchive]
    exact List.take_left' hmagic8
  refine ⟨hmagic, ?_⟩
  have hone3 := Lemmas.parseArOne_build (strBytes "data.tar.xz") d []
    (by decide) (by decide) hd
  have hone2 := Lemmas.parseArOne_build (strBytes "control.tar.gz") c
    (arHeaderBytes (strBytes "data.tar.xz") d.length ++ (d ++ (arPad d ++ [])))
    (by decide) (by decide) hc
  have hone1 := Lemmas.parseArOne_build (strBytes "debian-binary") (strBytes "2.0\n")
    (arHeaderBytes (strBytes "control.tar.gz") c.length ++ (c ++ (arPad c ++
      (arHeaderBytes (strBytes "data.tar.xz") d.length ++ (d ++ (arPad d ++ []))))))
    (by decide) (by decide) (by decide)
  have hbody : (debianBuildAr c d).drop 8 =
      arHeaderBytes (strBytes "debian-binary") (strBytes "2.0\n").length ++
        (strBytes "2.0\n" ++ (arPad (strBytes "2.0\n") ++
          (arHeaderBytes (strBytes "control.tar.gz") c.length ++ (c ++ (arPad c ++
            (arHeaderBytes (strBytes "data.tar.xz") d.length ++ (d ++ (arPad d ++ [])))))))) := by
    rw [debianBuildAr, buildArArchive, List.drop_left' hmagic8]
    simp [List.flatMap, List.append_assoc]
  have hlen8 : 3 ≤ (debianBuildAr c d).length := by
    rw [debianBuildAr, buildArArchive]
    simp [hmagic8]
    omega
  have h0 : parseArAux ((debianBuildAr c d).length - 3) [] = some [] :=
    Lemmas.parseArAux_nil _
  have h1 := Lemmas.parseArAux_cons ((debianBuildAr c d).length - 3) _ _ _ _
    (Lemmas.arEntryStream_ne_nil _ _ _) hone3 h0
  have h2 := Lemmas.parseArAux_cons ((debianBuildAr c d).length - 3 + 1) _ _ _ _
    (Lemmas.arEntryStream_ne_nil _ _ _) hone2 h1
  have h3 := Lemmas.parseArAux_cons ((debianBuildAr c d).length - 3 + 1 + 1) _ _ _ _
    (Lemmas.arEntryStream_ne_nil _ _ _) hone1 h2
  have hfuel : (debianBuildAr c d).length - 3 + 1 + 1 + 1 = (debianBuildAr c d).length := by
    omega
  rw [hfuel] at h3
  rw [parseAr, if_pos hmagic, hbody]
  have hlen4 : (strBytes "2.0\n").length = 4 := rfl
  rw [hlen4] at h3 ⊢
  exact h3

/-- Witness for C5: the layout theorem at one-byte and two-byte tarballs. -/
theorem claim_C5_witness :
    (debianBuildAr [1] [2, 3]).take 8 = strBytes "!<arch>\n"
    ∧ parseAr (debianBuildAr [1] [2, 3]) = some
        [{ name := strBytes "debian-binary", mtime := 0, uid := 0, gid := 0,
           mode := strBytes "100644", data := strBytes "2.0\n" },
         { name := strBytes "control.tar.gz", mtime := 0, uid := 0, gid := 0,
           mode := strBytes "100644", data := [1] },
         { name := strBytes "data.tar.xz", mtime := 0, uid := 0, gid := 0,
           mode := strBytes "100644", data := [2, 3] }] :=
  claim_C5_debian_ar_layout [1] [2, 3] (by decide) (by decide)

end HoloBuild
